import Mathlib

/-!
Verification of the dependency-graph construction and threat-classification
engine of the PNPM security scanner (scripts/security-scan.js).

Strings are modelled as `List Char` (`Str`); JavaScript `Map` objects are
modelled as association lists with insertion-order semantics (`mapSet`
overwrites in place, otherwise appends).  JavaScript `undefined`/absent
fields are modelled with `Option`.
-/

namespace SecurityScan

abbrev Str := List Char

/-- Option alternative, mirroring ordered attempts of regex alternatives. -/
def orElseO {α : Type} (a b : Option α) : Option α :=
  match a with
  | some x => some x
  | none => b

/-- JS `Map.prototype.has`. -/
def mapHas {α : Type} (m : List (Str × α)) (k : Str) : Bool :=
  m.any (fun p => p.1 == k)

/-- JS `Map.prototype.set`: overwrite in place if the key exists, else append. -/
def mapSet {α : Type} (m : List (Str × α)) (k : Str) (v : α) : List (Str × α) :=
  if mapHas m k then m.map (fun p => if p.1 == k then (k, v) else p)
  else m ++ [(k, v)]

/-- JS `Map.prototype.get` / object indexing (first binding wins). -/
def lookupA {α : Type} (m : List (Str × α)) (k : Str) : Option α :=
  (m.find? (fun p => p.1 == k)).map (fun p => p.2)

/-- Update the value stored at a key in place (JS `existing.field = v`). -/
def mapUpdate {α : Type} (m : List (Str × α)) (k : Str) (f : α → α) : List (Str × α) :=
  m.map (fun p => if p.1 == k then (k, f p.2) else p)

/-- JS `String.prototype.split` with a single-character separator. -/
def splitOnChar (c : Char) : Str → List Str
  | [] => [[]]
  | d :: rest =>
    if d = c then [] :: splitOnChar c rest
    else
      match splitOnChar c rest with
      | l :: ls => (d :: l) :: ls
      | [] => [[d]]

/-- JS `String.prototype.trim` (whitespace stripped from both ends). -/
def trim (l : Str) : Str :=
  ((l.dropWhile Char.isWhitespace).reverse.dropWhile Char.isWhitespace).reverse

/-- Fuel-driven worker for `splitOnSub`; fuel is the input length, which
always suffices because every step consumes at least one character. -/
def splitOnSubGo (sep : Str) : Nat → Str → Str → List Str
  | _, [], acc => [acc.reverse]
  | 0, t, acc => [acc.reverse ++ t]
  | fuel + 1, t@(c :: rest), acc =>
    if sep.isPrefixOf t then acc.reverse :: splitOnSubGo sep fuel (t.drop sep.length) []
    else splitOnSubGo sep fuel rest (c :: acc)

/-- JS `String.prototype.split` with a string separator (non-overlapping,
leftmost occurrences; empty separator splits into single characters). -/
def splitOnSub (t sep : Str) : List Str :=
  if sep.isEmpty then t.map (fun c => [c])
  else splitOnSubGo sep t.length t []

/- ============================================================
   Classifier data model (security-scan.js, lines 2077-2285)
   ============================================================ -/

/-- One protestware tier of the threat database: a package list plus a
per-package detail string map. -/
structure ProtestTier where
  packages : List Str
  details : List (Str × Str)
deriving DecidableEq

/-- The three protestware tiers (`db.knownMalicious.protestware`). -/
structure Protestware where
  high : ProtestTier
  medium : ProtestTier
  low : ProtestTier
deriving DecidableEq

/-- Flat deny-lists (`db.knownMalicious`); absent lists behave as empty. -/
structure KnownMalicious where
  confirmed : List Str
  typosquatting : List Str
  credentialTheft : List Str
  cryptoMalware : List Str
  protestware : Protestware
deriving DecidableEq

/-- A campaign record; `Option` fields model JS fields that may be absent. -/
structure Campaign where
  name : Option Str
  severity : Option Str
  description : Option Str
  packages : List Str
  affectedVersions : List (Str × List Str)
deriving DecidableEq

/-- The threat database as consumed by the classifier.  `trustedPackages`
models `db.trustedPackages.packages`; `campaigns` is an association list to
preserve `Object.entries` iteration order. -/
structure ThreatDatabase where
  knownMalicious : KnownMalicious
  campaigns : List (Str × Campaign)
  trustedPackages : List Str
deriving DecidableEq

/-- Caller configuration consumed by `isIgnored` / `isTrusted`. -/
structure Config where
  trustedPackages : List Str
  ignore : List Str
deriving DecidableEq

/-- Dependency metadata passed to the classifier (`depInfo`). -/
structure DepInfo where
  isDirect : Bool
  isTransitive : Bool
  dependencyChain : List Str
deriving DecidableEq

/-- An issue object produced by `checkPackage`.  The lineage fields are
`Option` because the version-specific campaign path builds its object
without them (JS `undefined`); `safeVersion` is a plain Bool because JS
treats the absent field as falsy. -/
structure Issue where
  package : Str
  version : Str
  isDirect : Option Bool
  isTransitive : Option Bool
  dependencyChain : Option (List Str)
  severity : Str
  type : Str
  campaign : Option Str
  reason : Str
  action : Str
  affectedVersions : Option (List Str)
  safeVersion : Bool
deriving DecidableEq

/-- Result of `checkPackage`: `{ignored:true}`, `{trusted:true}`, an issue
object, or `null`. -/
inductive CheckResult where
  | ignored
  | trusted
  | issue (i : Issue)
  | clean
deriving DecidableEq

/-- Pattern matching with `/*` namespace wildcards (`matchesPattern`). -/
def matchesPattern (packageName pattern : Str) : Bool :=
  if ['/', '*'].isSuffixOf pattern then
    let scope := pattern.take (pattern.length - 2)
    (scope ++ ['/']).isPrefixOf packageName
  else packageName == pattern

/-- Trusted check: database trusted patterns plus config trusted patterns. -/
def isTrusted (packageName : Str) (db : ThreatDatabase) (config : Config) : Bool :=
  (db.trustedPackages ++ config.trustedPackages).any (fun p => matchesPattern packageName p)

/-- Ignore check: CLI ignore list plus config ignore list. -/
def isIgnored (packageName : Str) (ignoreList : List Str) (config : Config) : Bool :=
  (ignoreList ++ config.ignore).any (fun p => matchesPattern packageName p)

/-- Strip leading range-prefix characters and keep the first
space-separated token (`version.replace(/^[\^~>=<]*/g, '').split(' ')[0]`). -/
def cleanVersion (version : Str) : Str :=
  (version.dropWhile (fun c => c == '^' || c == '~' || c == '>' || c == '=' || c == '<')).takeWhile
    (fun c => c != ' ')

/-- Version membership check (`isVersionAffected`): an empty list means all
versions are affected; otherwise exact membership of the cleaned version. -/
def isVersionAffected (version : Str) (affectedVersions : List Str) : Bool :=
  if affectedVersions.isEmpty then true
  else affectedVersions.contains (cleanVersion version)

/-- Issue built from the shared `baseIssue` object plus branch fields. -/
def baseIssue (packageName version : Str) (depInfo : Option DepInfo)
    (severity type reason action : Str) : Issue :=
  { package := packageName
    version := version
    isDirect := some ((depInfo.map DepInfo.isDirect).getD true)
    isTransitive := some ((depInfo.map DepInfo.isTransitive).getD false)
    dependencyChain := some ((depInfo.map DepInfo.dependencyChain).getD [])
    severity := severity
    type := type
    campaign := none
    reason := reason
    action := action
    affectedVersions := none
    safeVersion := false }

/-- The campaign loop of `checkPackage` (lines 2236-2282), in
`Object.entries` iteration order; first match returns. -/
def checkCampaigns (packageName version : Str) (depInfo : Option DepInfo) :
    List (Str × Campaign) → Option Issue
  | [] => none
  | (campaignId, campaign) :: rest =>
    if campaign.packages.contains packageName then
      match lookupA campaign.affectedVersions packageName with
      | some av =>
        if !isVersionAffected version av then
          some { baseIssue packageName version depInfo
                   "low".data (campaign.name.getD campaignId)
                   "Package was part of attack campaign but your version appears safe".data
                   "VERIFY - Ensure you are on a safe version".data with
                 campaign := some campaignId
                 affectedVersions := some av
                 safeVersion := true }
        else
          some { baseIssue packageName version depInfo
                   (campaign.severity.getD "high".data) (campaign.name.getD campaignId)
                   (campaign.description.getD "Part of known attack campaign".data)
                   "CHECK VERSION AND UPDATE".data with
                 campaign := some campaignId
                 affectedVersions := some av }
      | none =>
        some { baseIssue packageName version depInfo
                 (campaign.severity.getD "high".data) (campaign.name.getD campaignId)
                 (campaign.description.getD "Part of known attack campaign".data)
                 "CHECK VERSION AND UPDATE".data with
               campaign := some campaignId
               affectedVersions := none }
    else
      match lookupA campaign.affectedVersions packageName with
      | some av =>
        if isVersionAffected version av then
          some { package := packageName
                 version := version
                 isDirect := none
                 isTransitive := none
                 dependencyChain := none
                 severity := "critical".data
                 type := campaign.name.getD campaignId
                 campaign := some campaignId
                 reason := ("This specific version was compromised in the ".data ++
                   (campaign.name.getD campaignId) ++ " attack".data)
                 action := "UPDATE TO SAFE VERSION IMMEDIATELY".data
                 affectedVersions := some av
                 safeVersion := false }
        else checkCampaigns packageName version depInfo rest
      | none => checkCampaigns packageName version depInfo rest

/-- The classifier `checkPackage`: fixed precedence of ignore, trust, the
four malicious deny-lists, the three protestware tiers, then campaigns. -/
def checkPackage (packageName version : Str) (db : ThreatDatabase)
    (depInfo : Option DepInfo) (config : Config) (ignoreList : List Str) : CheckResult :=
  if isIgnored packageName ignoreList config then .ignored
  else if isTrusted packageName db config then .trusted
  else
    let malicious := db.knownMalicious
    if malicious.confirmed.contains packageName then
      .issue (baseIssue packageName version depInfo "critical".data
        "Confirmed Malicious".data
        "This package has been confirmed as malicious".data
        "REMOVE IMMEDIATELY".data)
    else if malicious.typosquatting.contains packageName then
      .issue (baseIssue packageName version depInfo "critical".data
        "Typosquatting".data
        "This package name is a typosquatting variant of a popular package".data
        "REMOVE IMMEDIATELY - Check you have the correct package name".data)
    else if malicious.credentialTheft.contains packageName then
      .issue (baseIssue packageName version depInfo "critical".data
        "Credential Theft".data
        "This package has been found to steal credentials".data
        "REMOVE IMMEDIATELY - Rotate all credentials".data)
    else if malicious.cryptoMalware.contains packageName then
      .issue (baseIssue packageName version depInfo "critical".data
        "Crypto Malware".data
        "This package contains cryptocurrency mining or wallet-stealing malware".data
        "REMOVE IMMEDIATELY - Check for unauthorized transactions".data)
    else if malicious.protestware.high.packages.contains packageName then
      .issue (baseIssue packageName version depInfo "high".data
        "Protestware (Destructive)".data
        ((lookupA malicious.protestware.high.details packageName).getD
          "Destructive protestware".data)
        "REMOVE - Can delete or corrupt files on affected systems".data)
    else if malicious.protestware.medium.packages.contains packageName then
      .issue (baseIssue packageName version depInfo "medium".data
        "Protestware (DoS)".data
        ((lookupA malicious.protestware.medium.details packageName).getD
          "DoS protestware".data)
        "REMOVE - Causes application hang or crash. Use alternative package.".data)
    else if malicious.protestware.low.packages.contains packageName then
      .issue (baseIssue packageName version depInfo "low".data
        "Protestware (Message)".data
        ((lookupA malicious.protestware.low.details packageName).getD
          "Protestware with political message".data)
        "OPTIONAL - No malicious behavior, contains political message only".data)
    else
      match checkCampaigns packageName version depInfo db.campaigns with
      | some i => .issue i
      | none => .clean

/- ============================================================
   Lock decoders (security-scan.js, lines 1648-1844)
   ============================================================ -/

/-- Entry of the decoded lock map: resolved version plus introduction chain. -/
structure LockEntry where
  version : Str
  isTransitive : Bool
  dependencyChain : List Str
deriving DecidableEq

/-- The `version.replace(/['"]/g, '')` cleanup used by the pnpm decoder. -/
def stripQuotes (v : Str) : Str :=
  v.filter (fun c => c != '\'' && c != '"')

/-- Tail of the pnpm package-entry regex: `['"]?:?\s*$` (each optional item
consumed greedily; giving one back can never rescue a failed tail, since the
remaining characters would then start with a non-matching character). -/
def pnpmMatchEnd (v : Str) : Bool :=
  let v1 := match v with
    | c :: rest => if c = '\'' ∨ c = '"' then rest else v
    | [] => v
  let v2 := match v1 with
    | ':' :: rest => rest
    | _ => v1
  v2.all Char.isWhitespace

/-- Version group of the pnpm package-entry regex: greedy `([^:']+)`
followed by the tail.  A shorter version run cannot succeed where the
greedy one fails, because the run characters are excluded from the tail. -/
def pnpmMatchVersion (name : Str) (v : Str) : Option (Str × Str) :=
  let ver := v.takeWhile (fun c => c != ':' && c != '\'')
  if ver.isEmpty then none
  else if pnpmMatchEnd (v.drop ver.length) then some (name, ver)
  else none

/-- Name group of the pnpm package-entry regex,
`((?:@[^@/]+\/)?[^@:]+)@([^:']+)...`, at the current position.  When the
text starts with `@` the scope alternative is forced (the plain `[^@:]+`
branch cannot start at `@`); the greedy runs are deterministic because each
is followed by a literal excluded from its character class. -/
def pnpmMatchName (u : Str) : Option (Str × Str) :=
  match u with
  | '@' :: v =>
    let s := v.takeWhile (fun c => c != '@' && c != '/')
    if s.isEmpty then none
    else match v.drop s.length with
      | '/' :: w =>
        let b := w.takeWhile (fun c => c != '@' && c != ':')
        if b.isEmpty then none
        else match w.drop b.length with
          | '@' :: z => pnpmMatchVersion ('@' :: (s ++ '/' :: b)) z
          | _ => none
      | _ => none
  | _ =>
    let b := u.takeWhile (fun c => c != '@' && c != ':')
    if b.isEmpty then none
    else match u.drop b.length with
      | '@' :: z => pnpmMatchVersion b z
      | _ => none

/-- Optional leading `\/?` of the pnpm package-entry regex (consume first,
then retry without, as the regex backtracks). -/
def pnpmMatchSlash (u : Str) : Option (Str × Str) :=
  orElseO
    (match u with
     | '/' :: rest => pnpmMatchName rest
     | _ => none)
    (pnpmMatchName u)

/-- The pnpm package-entry regex
`^['"]?\/?((?:@[^@/]+\/)?[^@:]+)@([^:']+)['"]?:?\s*$`, returning
(name, version). -/
def pnpmPackageMatch (t : Str) : Option (Str × Str) :=
  match t with
  | c :: rest =>
    if c = '\'' ∨ c = '"' then orElseO (pnpmMatchSlash rest) (pnpmMatchSlash t)
    else pnpmMatchSlash t
  | [] => none

/-- Version group of the pnpm snapshot regex: `([^:'(]+)` with no tail. -/
def pnpmSnapshotVersion (name : Str) (v : Str) : Option (Str × Str) :=
  let ver := v.takeWhile (fun c => c != ':' && c != '\'' && c != '(')
  if ver.isEmpty then none else some (name, ver)

/-- Name group of the pnpm snapshot regex `((?:@[^@/]+\/)?[^@(]+)@...`. -/
def pnpmSnapshotName (u : Str) : Option (Str × Str) :=
  match u with
  | '@' :: v =>
    let s := v.takeWhile (fun c => c != '@' && c != '/')
    if s.isEmpty then none
    else match v.drop s.length with
      | '/' :: w =>
        let b := w.takeWhile (fun c => c != '@' && c != '(')
        if b.isEmpty then none
        else match w.drop b.length with
          | '@' :: z => pnpmSnapshotVersion ('@' :: (s ++ '/' :: b)) z
          | _ => none
      | _ => none
  | _ =>
    let b := u.takeWhile (fun c => c != '@' && c != '(')
    if b.isEmpty then none
    else match u.drop b.length with
      | '@' :: z => pnpmSnapshotVersion b z
      | _ => none

/-- The pnpm snapshot regex `^['"]?((?:@[^@/]+\/)?[^@(]+)@([^:'(]+)`
(prefix match). -/
def pnpmSnapshotMatch (t : Str) : Option (Str × Str) :=
  match t with
  | c :: rest =>
    if c = '\'' ∨ c = '"' then orElseO (pnpmSnapshotName rest) (pnpmSnapshotName t)
    else pnpmSnapshotName t
  | [] => none

/-- Line loop of `parsePnpmLock`; state is the `inPackages` flag plus the
accumulated package map.  The section-exit test omits the `trimmed !== ''`
conjunct because blank lines were already skipped. -/
def parsePnpmLockLines : List Str → Bool → List (Str × LockEntry) → List (Str × LockEntry)
  | [], _, packages => packages
  | line :: rest, inPackages, packages =>
    let trimmed := trim line
    if trimmed.isEmpty || trimmed.head? == some '#' then
      parsePnpmLockLines rest inPackages packages
    else if trimmed == "packages:".data then
      parsePnpmLockLines rest true packages
    else if inPackages && line.head? != some ' ' && line.head? != some '\t' &&
        !(trimmed.head? == some '/' || trimmed.head? == some '\'') then
      parsePnpmLockLines rest false packages
    else if inPackages then
      match pnpmPackageMatch trimmed with
      | some (name, version) =>
        let packages' :=
          if mapHas packages name then packages
          else mapSet packages name ⟨stripQuotes version, true, []⟩
        parsePnpmLockLines rest inPackages packages'
      | none =>
        match pnpmSnapshotMatch trimmed with
        | some (name, version) =>
          let packages' :=
            if mapHas packages name then packages
            else mapSet packages name ⟨stripQuotes version, true, []⟩
          parsePnpmLockLines rest inPackages packages'
        | none => parsePnpmLockLines rest inPackages packages
    else parsePnpmLockLines rest inPackages packages

/-- `parsePnpmLock`: split the raw text into lines and run the line loop. -/
def parsePnpmLock (content : Str) : List (Str × LockEntry) :=
  parsePnpmLockLines (splitOnChar '\n' content) false []

/-- Base-and-version part of the yarn header regex after the optional
scope: `[^@,\s"']+@[^,:\s"']+["']?`.  `pre` counts characters already
consumed; the result carries the total match length. -/
def yarnBase (w : Str) (scope : Option Str) (pre : Nat) : Option (Str × Nat) :=
  let b := w.takeWhile (fun c => c != '@' && c != ',' && !c.isWhitespace && c != '"' && c != '\'')
  if b.isEmpty then none
  else match w.drop b.length with
    | '@' :: z =>
      let ver := z.takeWhile
        (fun c => c != ',' && c != ':' && !c.isWhitespace && c != '"' && c != '\'')
      if ver.isEmpty then none
      else
        let tq : Nat := match z.drop ver.length with
          | c :: _ => if c = '"' ∨ c = '\'' then 1 else 0
          | [] => 0
        let name := match scope with
          | some s => '@' :: (s ++ '/' :: b)
          | none => b
        some (name, pre + b.length + 1 + ver.length + tq)
    | _ => none

/-- Backtracking over the greedy `[^@,\s]+` of the yarn optional scope
`(?:@[^@,\s]+\/)?`: the slash position is tried from the greedy end
downwards, exactly as the regex gives characters back one at a time.  `v`
is the text after the leading `@`; the function is invoked with the greedy
run length, so every tried prefix lies inside the character class. -/
def yarnScopeDescend (v : Str) : Nat → Option (Str × Nat)
  | 0 => none
  | j + 1 =>
    orElseO
      (if v.get? (j + 1) == some '/' then
        yarnBase (v.drop (j + 2)) (some (v.take (j + 1))) (j + 3)
       else none)
      (yarnScopeDescend v j)

/-- Yarn header regex at the current position, without the optional leading
quote.  For text starting with `@` the scope alternative is forced, since
the base class `[^@,\s"']` excludes `@`. -/
def yarnMatchCore (u : Str) : Option (Str × Nat) :=
  match u with
  | '@' :: v =>
    let r := v.takeWhile (fun c => c != '@' && c != ',' && !c.isWhitespace)
    yarnScopeDescend v r.length
  | _ => yarnBase u none 0

/-- One attempt of the yarn header regex
`["']?((?:@[^@,\s]+\/)?[^@,\s"']+)@[^,:\s"']+["']?` at the current
position (optional quote consumed first, then skipped). -/
def yarnMatchAt (t : Str) : Option (Str × Nat) :=
  match t with
  | c :: rest =>
    if c = '"' ∨ c = '\'' then
      orElseO ((yarnMatchCore rest).map (fun p => (p.1, p.2 + 1))) (yarnMatchCore t)
    else yarnMatchCore t
  | [] => none

/-- `matchAll` scan of the yarn header regex: collect group 1 of successive
matches, resuming after each match, advancing one position on failure.
Fuel is the text length, which always suffices because every match
consumes at least one character. -/
def yarnHeaderGo : Nat → Str → List Str
  | 0, _ => []
  | _, [] => []
  | fuel + 1, t@(_ :: rest) =>
    match yarnMatchAt t with
    | some (name, consumed) => name :: yarnHeaderGo fuel (t.drop (max 1 consumed))
    | none => yarnHeaderGo fuel rest

/-- All alias names declared on one yarn header line. -/
def yarnHeaderMatches (t : Str) : List Str := yarnHeaderGo t.length t

/-- Attempt of the yarn version regex `version\s+["']?([^"'\s]+)["']?` at
the current position. -/
def yarnVersionAt (t : Str) : Option Str :=
  if "version".data.isPrefixOf t then
    let a := t.drop "version".data.length
    let ws := a.takeWhile Char.isWhitespace
    if ws.isEmpty then none
    else
      let b := a.drop ws.length
      let b' := match b with
        | c :: r => if c = '"' ∨ c = '\'' then r else b
        | [] => b
      let g := b'.takeWhile (fun c => c != '"' && c != '\'' && !c.isWhitespace)
      if g.isEmpty then none else some g
  else none

/-- Unanchored search of the yarn version regex (JS `String.match`). -/
def yarnVersionMatch : Str → Option Str
  | [] => none
  | t@(_ :: rest) => orElseO (yarnVersionAt t) (yarnVersionMatch rest)

/-- Line loop of `parseYarnLock`; state is the buffered alias header list.
The header assignment happens before the version test, as in the source. -/
def parseYarnLockLines : List Str → List Str → List (Str × LockEntry) → List (Str × LockEntry)
  | [], _, packages => packages
  | line :: rest, currentPackages, packages =>
    let trimmed := trim line
    if trimmed.isEmpty || trimmed.head? == some '#' then
      parseYarnLockLines rest currentPackages packages
    else
      let currentPackages' :=
        if line.head? != some ' ' && line.head? != some '\t' then yarnHeaderMatches trimmed
        else currentPackages
      if "  version".data.isPrefixOf line && !currentPackages'.isEmpty then
        match yarnVersionMatch trimmed with
        | some v =>
          let packages' := currentPackages'.foldl
            (fun m pkgName => if mapHas m pkgName then m else mapSet m pkgName ⟨v, true, []⟩)
            packages
          parseYarnLockLines rest currentPackages' packages'
        | none => parseYarnLockLines rest currentPackages' packages
      else parseYarnLockLines rest currentPackages' packages

/-- `parseYarnLock`: split the raw text into lines and run the line loop. -/
def parseYarnLock (content : Str) : List (Str × LockEntry) :=
  parseYarnLockLines (splitOnChar '\n' content) [] []

/-- Package info object of an npm lockfileVersion 2/3 `packages` entry;
`dev`/`peer` are falsy when absent. -/
structure NpmPkgInfo where
  version : Option Str
  dev : Bool
  peer : Bool
deriving DecidableEq

/-- A node of the npm v6 nested `dependencies` tree.  An absent
`dependencies` object behaves exactly like an empty one (recursing into an
empty object adds nothing), so it is modelled as a plain list. -/
inductive NpmDepNode where
  | mk (version : Option Str) (dependencies : List (Str × NpmDepNode))

/-- The JSON shape of package-lock.json as read by `parseNpmLock`. -/
structure NpmLockfile where
  packages : Option (List (Str × NpmPkgInfo))
  dependencies : Option (List (Str × NpmDepNode))

/-- Trailing-component part of the npm path regex, after a `node_modules/`
occurrence: `((?:@[^/]+\/)?[^/]+)$` (scope alternative first, then the
plain single component, as the regex backtracks). -/
def npmNameAfter (r : Str) : Option Str :=
  orElseO
    (match r with
     | '@' :: v =>
       let s := v.takeWhile (fun c => c != '/')
       if s.isEmpty then none
       else match v.drop s.length with
         | '/' :: b =>
           if !b.isEmpty && !b.contains '/' then some ('@' :: (s ++ '/' :: b)) else none
         | _ => none
     | _ => none)
    (if !r.isEmpty && !r.contains '/' then some r else none)

/-- Leftmost-match search of `/node_modules\/((?:@[^/]+\/)?[^/]+)$/` over
an npm package path. -/
def npmPathMatch : Str → Option Str
  | [] => none
  | t@(_ :: rest) =>
    orElseO
      (if "node_modules/".data.isPrefixOf t then
        npmNameAfter (t.drop "node_modules/".data.length)
       else none)
      (npmPathMatch rest)

/-- `extractDependencyChain`: split the path on `/node_modules/`, keep the
non-empty parts different from the literal `node_modules`, and drop the
final component (the package itself). -/
def extractDependencyChain (pkgPath : Str) : List Str :=
  ((splitOnSub pkgPath "/node_modules/".data).filter
    (fun p => !p.isEmpty && p != "node_modules".data)).dropLast

/-- Recursive walk of the npm v6 `dependencies` tree, accumulating the
introduction chain (`parseNpmDependencies`). -/
def parseNpmDependencies :
    List (Str × NpmDepNode) → List (Str × LockEntry) → List Str → List (Str × LockEntry)
  | [], packages, _ => packages
  | (name, NpmDepNode.mk version children) :: rest, packages, chain =>
    let m1 := mapSet packages name ⟨version.getD "unknown".data, !chain.isEmpty, chain⟩
    let m2 := parseNpmDependencies children m1 (chain ++ [name])
    parseNpmDependencies rest m2 chain

/-- `parseNpmLock` over the parsed JSON document; `none` models a
`JSON.parse` failure, which the source catches, returning the empty map. -/
def parseNpmLock (parsed : Option NpmLockfile) : List (Str × LockEntry) :=
  match parsed with
  | none => []
  | some lockfile =>
    let packages :=
      match lockfile.packages with
      | some entries =>
        entries.foldl
          (fun m entry =>
            if entry.1.isEmpty then m
            else match npmPathMatch entry.1 with
              | some name =>
                mapSet m name
                  ⟨entry.2.version.getD "unknown".data, !entry.2.dev && !entry.2.peer,
                    extractDependencyChain entry.1⟩
              | none => m)
          []
      | none => []
    match lockfile.dependencies with
    | some deps => parseNpmDependencies deps packages []
    | none => packages

/- ============================================================
   Dependency graph builder (security-scan.js, lines 1899-1930
   and 2809-2854) and result statistics (lines 2479-2507)
   ============================================================ -/

/-- A merged dependency node. -/
structure DependencyNode where
  version : Str
  isDirect : Bool
  isTransitive : Bool
  dependencyChain : List Str
deriving DecidableEq

/-- `mergeDependencies`: seed one direct node per declared name, then add
transitive nodes from the lock map; for a name already present only the
version is overwritten in place. -/
def mergeDependencies (directDeps : List (Str × Str)) (lockPackages : List (Str × LockEntry)) :
    List (Str × DependencyNode) :=
  let merged := directDeps.foldl
    (fun m entry => mapSet m entry.1 ⟨entry.2, true, false, []⟩) []
  lockPackages.foldl
    (fun m entry =>
      if mapHas m entry.1 then
        mapUpdate m entry.1 (fun e => { e with version := entry.2.version })
      else mapSet m entry.1 ⟨entry.2.version, false, true, entry.2.dependencyChain⟩)
    merged

/-- The direct-only node set built by the fallback loop of `scan`: one node
per declared name with the locked version when one is known and non-empty
(`lockedVersions[name] || version`). -/
def directDependencyMap (directDependencies : List (Str × Str))
    (lockedVersions : List (Str × Str)) : List (Str × DependencyNode) :=
  directDependencies.foldl
    (fun m entry =>
      let v := match lookupA lockedVersions entry.1 with
        | some lv => if lv.isEmpty then entry.2 else lv
        | none => entry.2
      mapSet m entry.1 ⟨v, true, false, []⟩)
    []

/-- The direct-only seed set of the specification: one node per directly
declared name carrying the declared range string. -/
def directSeed (directDependencies : List (Str × Str)) : List (Str × DependencyNode) :=
  directDependencies.foldl
    (fun m entry => mapSet m entry.1 ⟨entry.2, true, false, []⟩) []

/-- The `scanStats` record fields relevant to the graph builder. -/
structure ScanStats where
  total : Nat
  direct : Nat
  transitive : Nat
  lockFileType : Option Str
deriving DecidableEq

/-- The deep-scan graph-building step of `scan`: merge with the lock map
when it is present and non-empty, otherwise fall back to the direct-only
node set; the statistics mirror `scanStats` (for a manifest without
duplicate names `directDependencies.length` is `Object.keys(...).length`). -/
def buildDependencies (directDependencies : List (Str × Str))
    (lockFile : Option (Str × List (Str × LockEntry)))
    (lockedVersions : List (Str × Str)) :
    List (Str × DependencyNode) × ScanStats :=
  let directCount := directDependencies.length
  let fallback :=
    (directDependencyMap directDependencies lockedVersions,
      (⟨directCount, directCount, 0, none⟩ : ScanStats))
  match lockFile with
  | some (filename, lockPackages) =>
    if 0 < lockPackages.length then
      let allDependencies := mergeDependencies directDependencies lockPackages
      (allDependencies,
        ⟨allDependencies.length, directCount, allDependencies.length - directCount,
          some filename⟩)
    else fallback
  | none => fallback

/-- The `scanMode` field of the JSON output:
`scanStats.lockFileType ? 'deep' : 'direct'` (lock file names are non-empty
literals, so truthiness coincides with presence). -/
def scanMode (scanStats : ScanStats) : Str :=
  match scanStats.lockFileType with
  | some _ => "deep".data
  | none => "direct".data

/- ============================================================
   Concrete inputs used by witnesses and counterexamples
   ============================================================ -/

/-- A protestware tier with no packages. -/
def emptyTier : ProtestTier := ⟨[], []⟩

/-- Protestware with all three tiers empty. -/
def emptyProtestware : Protestware := ⟨emptyTier, emptyTier, emptyTier⟩

/-- Deny-lists with every category empty. -/
def emptyMalicious : KnownMalicious := ⟨[], [], [], [], emptyProtestware⟩

/-- A configuration with no trusted and no ignored patterns. -/
def emptyConfig : Config := ⟨[], []⟩

/-- Database where a confirmed-malicious name is also covered by a trusted
namespace wildcard. -/
def dbTrusted : ThreatDatabase :=
  ⟨{ emptyMalicious with confirmed := ["@scope/anything".data] }, [], ["@scope/*".data]⟩

/-- Database with a single confirmed-malicious name. -/
def dbConfirmed : ThreatDatabase :=
  ⟨{ emptyMalicious with confirmed := ["evil-pkg".data] }, [], []⟩

/-- A campaign that lists a name only in `affectedVersions`, not in its
`packages` set. -/
def campaignAVOnly : Campaign := ⟨none, none, none, [], [("foo".data, ["1.0.0".data])]⟩

/-- Database holding only `campaignAVOnly`. -/
def dbCampaignAVOnly : ThreatDatabase := ⟨emptyMalicious, [("c1".data, campaignAVOnly)], []⟩

/-- A campaign whose single package has an empty affected-versions entry. -/
def campaignEmptyAV : Campaign := ⟨none, none, none, ["foo".data], [("foo".data, [])]⟩

/-- Database holding only `campaignEmptyAV`. -/
def dbCampaignEmptyAV : ThreatDatabase := ⟨emptyMalicious, [("c1".data, campaignEmptyAV)], []⟩

/-- A campaign with one package restricted to one affected version. -/
def campaignVersioned : Campaign :=
  ⟨some "Campaign One".data, some "high".data, some "A campaign".data,
    ["foo".data], [("foo".data, ["1.0.0".data])]⟩

/-- Database holding only `campaignVersioned`. -/
def dbCampaignVersioned : ThreatDatabase := ⟨emptyMalicious, [("c1".data, campaignVersioned)], []⟩

/-- A campaign that does not concern `foo`: its package set holds only
`bar` and its affected-versions entry for `foo` lists a version `foo`
never has, so neither campaign path fires for `foo`. -/
def campaignBystander : Campaign :=
  ⟨none, none, none, ["bar".data], [("foo".data, ["9.9.9".data])]⟩

/-- Database where `campaignBystander` precedes `campaignVersioned` in the
iteration order. -/
def dbCampaignPrefixed : ThreatDatabase :=
  ⟨emptyMalicious,
    [("c0".data, campaignBystander), ("c1".data, campaignVersioned)], []⟩

end SecurityScan

namespace SecurityScan

/- ============================================================
   Helper lemmas
   ============================================================ -/

/-- A result of the campaign loop either carries the base-issue lineage
fields or was built by the version-specific path, which omits them. -/
theorem checkCampaigns_lineage (packageName version : Str) (depInfo : Option DepInfo)
    (camps : List (Str × Campaign)) (i : Issue)
    (h : checkCampaigns packageName version depInfo camps = some i) :
    (i.isDirect = some ((depInfo.map DepInfo.isDirect).getD true) ∧
      i.isTransitive = some ((depInfo.map DepInfo.isTransitive).getD false) ∧
      i.dependencyChain = some ((depInfo.map DepInfo.dependencyChain).getD [])) ∨
    (i.isDirect = none ∧ i.isTransitive = none ∧ i.dependencyChain = none) := by
  induction camps with
  | nil => simp [checkCampaigns] at h
  | cons hd tl ih =>
    obtain ⟨campaignId, campaign⟩ := hd
    rw [checkCampaigns] at h
    by_cases hp : campaign.packages.contains packageName
    · simp only [hp, if_true] at h
      cases hl : lookupA campaign.affectedVersions packageName with
      | some av =>
        rw [hl] at h
        by_cases hv : isVersionAffected version av
        · simp only [hv] at h
          cases h
          exact Or.inl ⟨rfl, rfl, rfl⟩
        · simp only [hv] at h
          cases h
          exact Or.inl ⟨rfl, rfl, rfl⟩
      | none =>
        rw [hl] at h
        cases h
        exact Or.inl ⟨rfl, rfl, rfl⟩
    · simp only [hp, if_false] at h
      cases hl : lookupA campaign.affectedVersions packageName with
      | some av =>
        rw [hl] at h
        by_cases hv : isVersionAffected version av
        · simp only [hv, if_true] at h
          cases h
          exact Or.inr ⟨rfl, rfl, rfl⟩
        · simp only [hv, if_false] at h
          exact ih h
      | none =>
        rw [hl] at h
        exact ih h

/-- When a name is in no campaign's package set and no affected-versions
entry marks its version affected, the campaign loop matches nothing. -/
theorem checkCampaigns_none (packageName version : Str) (depInfo : Option DepInfo)
    (camps : List (Str × Campaign))
    (hp : ∀ cid c, (cid, c) ∈ camps → c.packages.contains packageName = false)
    (hv : ∀ cid c av, (cid, c) ∈ camps → lookupA c.affectedVersions packageName = some av →
      isVersionAffected version av = false) :
    checkCampaigns packageName version depInfo camps = none := by
  induction camps with
  | nil => rfl
  | cons hd tl ih =>
    obtain ⟨campaignId, campaign⟩ := hd
    rw [checkCampaigns]
    have hp0 : campaign.packages.contains packageName = false :=
      hp campaignId campaign (List.mem_cons_self _ _)
    simp only [hp0, Bool.false_eq_true, if_false]
    cases hl : lookupA campaign.affectedVersions packageName with
    | some av =>
      have hv0 : isVersionAffected version av = false :=
        hv campaignId campaign av (List.mem_cons_self _ _) hl
      simp only [hv0, Bool.false_eq_true, if_false]
      exact ih (fun cid c hm => hp cid c (List.mem_cons_of_mem _ hm))
        (fun cid c av hm hl' => hv cid c av (List.mem_cons_of_mem _ hm) hl')
    | none =>
      exact ih (fun cid c hm => hp cid c (List.mem_cons_of_mem _ hm))
        (fun cid c av hm hl' => hv cid c av (List.mem_cons_of_mem _ hm) hl')

/-- A prefix of campaigns whose package sets miss the name and whose
affected-versions entries do not mark the version affected is skipped by
the loop: neither campaign path fires on any of them, so the result is
that of the remaining campaigns. -/
theorem checkCampaigns_skip (packageName version : Str) (depInfo : Option DepInfo)
    (pre camps : List (Str × Campaign))
    (hp : ∀ cid c, (cid, c) ∈ pre → c.packages.contains packageName = false)
    (hv : ∀ cid c av, (cid, c) ∈ pre → lookupA c.affectedVersions packageName = some av →
      isVersionAffected version av = false) :
    checkCampaigns packageName version depInfo (pre ++ camps) =
      checkCampaigns packageName version depInfo camps := by
  induction pre with
  | nil => rfl
  | cons hd tl ih =>
    obtain ⟨campaignId, campaign⟩ := hd
    rw [List.cons_append, checkCampaigns]
    have hp0 : campaign.packages.contains packageName = false :=
      hp campaignId campaign (List.mem_cons_self _ _)
    simp only [hp0, Bool.false_eq_true, if_false]
    cases hl : lookupA campaign.affectedVersions packageName with
    | some av =>
      have hv0 : isVersionAffected version av = false :=
        hv campaignId campaign av (List.mem_cons_self _ _) hl
      simp only [hv0, Bool.false_eq_true, if_false]
      exact ih (fun cid c hm => hp cid c (List.mem_cons_of_mem _ hm))
        (fun cid c av hm hl' => hv cid c av (List.mem_cons_of_mem _ hm) hl')
    | none =>
      exact ih (fun cid c hm => hp cid c (List.mem_cons_of_mem _ hm))
        (fun cid c av hm hl' => hv cid c av (List.mem_cons_of_mem _ hm) hl')

/-- A key with no binding in the map is found by no `find?` on it. -/
theorem find?_key_none {α : Type} (m : List (Str × α)) (k : Str) (h : mapHas m k = false) :
    m.find? (fun p => p.1 == k) = none := by
  rw [List.find?_eq_none]
  intro x hx hpx
  have hany : m.any (fun p => p.1 == k) = true := List.any_eq_true.mpr ⟨x, hx, hpx⟩
  rw [mapHas] at h
  rw [h] at hany
  cases hany

/-- Lookup on the empty map. -/
theorem lookupA_nil {α : Type} (k : Str) : lookupA ([] : List (Str × α)) k = none := rfl

/-- Lookup steps through one binding at a time. -/
theorem lookupA_cons {α : Type} (hd : Str × α) (tl : List (Str × α)) (k : Str) :
    lookupA (hd :: tl) k = if hd.1 == k then some hd.2 else lookupA tl k := by
  unfold lookupA
  cases h : (hd.1 == k) <;> simp [List.find?_cons, h]

/-- Key membership steps through one binding at a time. -/
theorem mapHas_cons {α : Type} (hd : Str × α) (tl : List (Str × α)) (k : Str) :
    mapHas (hd :: tl) k = (hd.1 == k || mapHas tl k) := rfl

/-- In-place overwrite: looking up the overwritten key gives the new value. -/
theorem lookupA_map_upd_self {α : Type} (m : List (Str × α)) (k : Str) (v : α)
    (hh : mapHas m k = true) :
    lookupA (m.map (fun p => if p.1 == k then (k, v) else p)) k = some v := by
  induction m with
  | nil => cases hh
  | cons hd tl ih =>
    rw [List.map_cons]
    by_cases hk : hd.1 == k
    · rw [if_pos hk, lookupA_cons, if_pos (by simp)]
    · rw [if_neg hk, lookupA_cons, if_neg hk]
      apply ih
      rw [mapHas_cons, Bool.or_eq_true] at hh
      rcases hh with h1 | h2
      · exact absurd h1 hk
      · exact h2

/-- In-place overwrite of one key does not change lookups of other keys. -/
theorem lookupA_map_upd_ne {α : Type} (m : List (Str × α)) (k k' : Str) (v : α)
    (h : k' ≠ k) :
    lookupA (m.map (fun p => if p.1 == k then (k, v) else p)) k' = lookupA m k' := by
  have hkk : (k == k') = false := beq_eq_false_iff_ne.mpr (fun he => h he.symm)
  induction m with
  | nil => rfl
  | cons hd tl ih =>
    rw [List.map_cons]
    by_cases hk : hd.1 == k
    · have hd1 : hd.1 = k := eq_of_beq hk
      have hd1' : (hd.1 == k') = false := by rw [hd1]; exact hkk
      rw [if_pos hk, lookupA_cons, lookupA_cons, hd1']
      simp only [hkk, Bool.false_eq_true, if_false]
      exact ih
    · rw [if_neg hk, lookupA_cons, lookupA_cons]
      by_cases hk' : hd.1 == k'
      · rw [if_pos hk', if_pos hk']
      · rw [if_neg hk', if_neg hk']
        exact ih

/-- Looking up the key just set returns the new value. -/
theorem lookupA_mapSet_self {α : Type} (m : List (Str × α)) (k : Str) (v : α) :
    lookupA (mapSet m k v) k = some v := by
  by_cases h : mapHas m k
  · rw [mapSet, if_pos h]
    exact lookupA_map_upd_self m k v h
  · rw [mapSet, if_neg h]
    rw [Bool.not_eq_true] at h
    unfold lookupA
    rw [List.find?_append, find?_key_none m k h]
    simp [List.find?]

/-- Setting one key leaves lookups of other keys unchanged. -/
theorem lookupA_mapSet_ne {α : Type} (m : List (Str × α)) (k k' : Str) (v : α)
    (h : k' ≠ k) :
    lookupA (mapSet m k v) k' = lookupA m k' := by
  have hkk : (k == k') = false := beq_eq_false_iff_ne.mpr (fun he => h he.symm)
  by_cases hh : mapHas m k
  · rw [mapSet, if_pos hh]
    exact lookupA_map_upd_ne m k k' v h
  · rw [mapSet, if_neg hh]
    unfold lookupA
    rw [List.find?_append]
    have hone : List.find? (fun p => p.1 == k') [(k, v)] = none := by
      simp [List.find?, hkk]
    rw [hone]
    cases m.find? (fun p => p.1 == k') <;> rfl

/-- Updating a key rewrites exactly its stored value. -/
theorem lookupA_mapUpdate_self {α : Type} (m : List (Str × α)) (k : Str) (f : α → α) :
    lookupA (mapUpdate m k f) k = (lookupA m k).map f := by
  induction m with
  | nil => rfl
  | cons hd tl ih =>
    rw [mapUpdate, List.map_cons]
    by_cases hk : hd.1 == k
    · rw [if_pos hk, lookupA_cons, if_pos (by simp), lookupA_cons, if_pos hk]
      rfl
    · rw [if_neg hk, lookupA_cons, if_neg hk, lookupA_cons, if_neg hk]
      exact ih

/-- Updating one key leaves lookups of other keys unchanged. -/
theorem lookupA_mapUpdate_ne {α : Type} (m : List (Str × α)) (k k' : Str) (f : α → α)
    (h : k' ≠ k) :
    lookupA (mapUpdate m k f) k' = lookupA m k' := by
  have hkk : (k == k') = false := beq_eq_false_iff_ne.mpr (fun he => h he.symm)
  induction m with
  | nil => rfl
  | cons hd tl ih =>
    rw [mapUpdate, List.map_cons]
    by_cases hk : hd.1 == k
    · have hd1 : hd.1 = k := eq_of_beq hk
      have hd1' : (hd.1 == k') = false := by rw [hd1]; exact hkk
      rw [if_pos hk, lookupA_cons, lookupA_cons, hd1']
      simp only [hkk, Bool.false_eq_true, if_false]
      exact ih
    · rw [if_neg hk, lookupA_cons, lookupA_cons]
      by_cases hk' : hd.1 == k'
      · rw [if_pos hk', if_pos hk']
      · rw [if_neg hk', if_neg hk']
        exact ih

/-- A successful lookup means the map has the key. -/
theorem mapHas_of_lookupA_some {α : Type} (m : List (Str × α)) (k : Str) (e : α)
    (h : lookupA m k = some e) : mapHas m k = true := by
  unfold lookupA at h
  cases hf : m.find? (fun p => p.1 == k) with
  | none => rw [hf] at h; cases h
  | some p =>
    have hp := List.find?_some hf
    have hm := List.mem_of_find?_eq_some hf
    exact List.any_eq_true.mpr ⟨p, hm, hp⟩

/-- The direct-seed fold produces (and preserves) nodes with isDirect
true, isTransitive false and an empty chain. -/
theorem seed_fold_lookup (dd : List (Str × Str)) (name : Str) :
    ∀ m : List (Str × DependencyNode),
    (name ∈ dd.map Prod.fst ∨ ∃ v, lookupA m name = some ⟨v, true, false, []⟩) →
    ∃ v, lookupA (dd.foldl (fun m entry => mapSet m entry.1 ⟨entry.2, true, false, []⟩) m)
      name = some ⟨v, true, false, []⟩ := by
  induction dd with
  | nil =>
    intro m h
    rcases h with h | h
    · simp at h
    · exact h
  | cons hd tl ih =>
    intro m h
    rw [List.foldl_cons]
    apply ih
    by_cases he : name = hd.1
    · right
      exact ⟨hd.2, by rw [he, lookupA_mapSet_self]⟩
    · rcases h with h | h
      · rw [List.map_cons] at h
        rcases List.mem_cons.mp h with h1 | h1
        · exact absurd h1 he
        · exact Or.inl h1
      · obtain ⟨v, hv⟩ := h
        exact Or.inr ⟨v, by rw [lookupA_mapSet_ne _ _ _ _ he]; exact hv⟩

/-- The lock-merging fold does not touch keys it never visits. -/
theorem lock_fold_preserve (lp : List (Str × LockEntry)) (name : Str) :
    ∀ m : List (Str × DependencyNode), name ∉ lp.map Prod.fst →
    lookupA (lp.foldl (fun m entry =>
      if mapHas m entry.1 then
        mapUpdate m entry.1 (fun e => { e with version := entry.2.version })
      else mapSet m entry.1 ⟨entry.2.version, false, true, entry.2.dependencyChain⟩) m)
      name = lookupA m name := by
  induction lp with
  | nil => intro m _; rfl
  | cons hd tl ih =>
    intro m h
    have hne : name ≠ hd.1 := by
      intro he
      exact h (by rw [List.map_cons, he]; exact List.mem_cons_self _ _)
    have h' : name ∉ tl.map Prod.fst := by
      intro hm
      exact h (by rw [List.map_cons]; exact List.mem_cons_of_mem _ hm)
    rw [List.foldl_cons, ih _ h']
    by_cases hh : mapHas m hd.1
    · rw [if_pos hh, lookupA_mapUpdate_ne _ _ _ _ hne]
    · rw [if_neg hh, lookupA_mapSet_ne _ _ _ _ hne]

/-- The lock-merging fold overwrites exactly the version of a pre-existing
entry whose key appears (once) in the lock map. -/
theorem lock_fold_overwrite (lp : List (Str × LockEntry)) (name : Str) (info : LockEntry) :
    ∀ (m : List (Str × DependencyNode)) (e : DependencyNode),
    lookupA m name = some e →
    lookupA lp name = some info →
    (lp.map Prod.fst).Nodup →
    lookupA (lp.foldl (fun m entry =>
      if mapHas m entry.1 then
        mapUpdate m entry.1 (fun e => { e with version := entry.2.version })
      else mapSet m entry.1 ⟨entry.2.version, false, true, entry.2.dependencyChain⟩) m)
      name = some { e with version := info.version } := by
  induction lp with
  | nil => intro m e _ hl _; cases hl
  | cons hd tl ih =>
    intro m e hm hl hnd
    rw [List.foldl_cons]
    by_cases he : name = hd.1
    · subst he
      rw [lookupA_cons, if_pos (by simp)] at hl
      cases hl
      have hh : mapHas m hd.1 = true := mapHas_of_lookupA_some m hd.1 e hm
      rw [if_pos hh]
      have hnotin : hd.1 ∉ tl.map Prod.fst := by
        rw [List.map_cons, List.nodup_cons] at hnd
        exact hnd.1
      rw [lock_fold_preserve tl hd.1 _ hnotin, lookupA_mapUpdate_self, hm]
      rfl
    · have hbeq : (hd.1 == name) = false :=
        beq_eq_false_iff_ne.mpr (fun hx => he hx.symm)
      rw [lookupA_cons, hbeq] at hl
      simp only [Bool.false_eq_true, if_false] at hl
      have hnd' : (tl.map Prod.fst).Nodup := by
        rw [List.map_cons, List.nodup_cons] at hnd
        exact hnd.2
      have hm' : lookupA (if mapHas m hd.1 then
          mapUpdate m hd.1 (fun e => { e with version := hd.2.version })
          else mapSet m hd.1 ⟨hd.2.version, false, true, hd.2.dependencyChain⟩) name
          = some e := by
        by_cases hh : mapHas m hd.1
        · rw [if_pos hh, lookupA_mapUpdate_ne _ _ _ _ he]; exact hm
        · rw [if_neg hh, lookupA_mapSet_ne _ _ _ _ he]; exact hm
      exact ih _ e hm' hl hnd'

/-- With no locked versions available, the fallback loop of `scan` builds
exactly the declared-version seed. -/
theorem directDependencyMap_no_locked (dd : List (Str × Str)) :
    directDependencyMap dd [] = directSeed dd := by
  unfold directDependencyMap directSeed
  suffices h : ∀ m : List (Str × DependencyNode),
      dd.foldl (fun m entry =>
        mapSet m entry.1
          ⟨match lookupA ([] : List (Str × Str)) entry.1 with
            | some lv => if lv.isEmpty then entry.2 else lv
            | none => entry.2, true, false, []⟩) m =
      dd.foldl (fun m entry => mapSet m entry.1 ⟨entry.2, true, false, []⟩) m by
    exact h []
  induction dd with
  | nil => intro m; rfl
  | cons hd tl ih =>
    intro m
    rw [List.foldl_cons, List.foldl_cons]
    exact ih _

/-- A greedy character-class run over `l ++ c :: r` stops exactly at a
character outside the class. -/
theorem takeWhile_append_stop (p : Char → Bool) (l r : Str) (c : Char)
    (hl : ∀ x ∈ l, p x = true) (hc : p c = false) :
    (l ++ c :: r).takeWhile p = l := by
  induction l with
  | nil => simp [List.takeWhile_cons, hc]
  | cons hd tl ih =>
    rw [List.cons_append, List.takeWhile_cons, if_pos (hl hd (List.mem_cons_self _ _)),
      ih (fun x hx => hl x (List.mem_cons_of_mem _ hx))]

/-- Splitting on a character absent from the text yields the whole text. -/
theorem splitOnChar_not_mem (c : Char) (l : Str) (h : c ∉ l) :
    splitOnChar c l = [l] := by
  induction l with
  | nil => rfl
  | cons hd tl ih =>
    rw [splitOnChar]
    have hne : hd ≠ c := fun he => h (by rw [he]; exact List.mem_cons_self _ _)
    rw [if_neg hne, ih (fun hm => h (List.mem_cons_of_mem _ hm))]

/-- Splitting at the first separator occurrence peels off the first line. -/
theorem splitOnChar_append (c : Char) (l₁ l₂ : Str) (h : c ∉ l₁) :
    splitOnChar c (l₁ ++ c :: l₂) = l₁ :: splitOnChar c l₂ := by
  induction l₁ with
  | nil => rw [List.nil_append, splitOnChar, if_pos rfl]
  | cons hd tl ih =>
    rw [List.cons_append, splitOnChar]
    have hne : hd ≠ c := fun he => h (by rw [he]; exact List.mem_cons_self _ _)
    rw [if_neg hne, ih (fun hm => h (List.mem_cons_of_mem _ hm))]

/-- A text with non-whitespace first and last characters trims to itself. -/
theorem trim_sandwich (c d : Char) (mid : Str)
    (hc : c.isWhitespace = false) (hd : d.isWhitespace = false) :
    trim (c :: (mid ++ [d])) = c :: (mid ++ [d]) := by
  have hc' : ¬(c.isWhitespace = true) := by rw [hc]; exact Bool.false_ne_true
  have hd' : ¬(d.isWhitespace = true) := by rw [hd]; exact Bool.false_ne_true
  unfold trim
  rw [List.dropWhile_cons_of_neg hc']
  have hrev : (c :: (mid ++ [d])).reverse = d :: (c :: mid).reverse := by
    rw [show c :: (mid ++ [d]) = (c :: mid) ++ [d] from (List.cons_append c mid [d]),
      List.reverse_append, List.reverse_singleton, List.singleton_append]
  rw [hrev, List.dropWhile_cons_of_neg hd']
  rw [← hrev, List.reverse_reverse]

/-- The yarn `matchAll` scan returns nothing on an exhausted text,
whatever fuel remains. -/
theorem yarnHeaderGo_nil (fuel : Nat) : yarnHeaderGo fuel [] = [] := by
  cases fuel <;> rfl

/-- Scope backtracking skips every candidate position that does not hold a
slash. -/
theorem yarnScopeDescend_skip (v : Str) (j : Nat) :
    ∀ n, j ≤ n → (∀ m, j < m → m ≤ n → v.get? m ≠ some '/') →
    yarnScopeDescend v n = yarnScopeDescend v j := by
  intro n
  induction n with
  | zero => intro hj _; cases Nat.le_zero.mp hj; rfl
  | succ k ih =>
    intro hj hm
    rcases Nat.lt_or_ge j (k + 1) with hlt | hge
    · have hne : v.get? (k + 1) ≠ some '/' := hm (k + 1) hlt (Nat.le_refl _)
      have hbeq : (v.get? (k + 1) == some '/') = false := by
        rw [beq_eq_false_iff_ne]
        exact hne
      rw [yarnScopeDescend, hbeq]
      simp only [Bool.false_eq_true, if_false, orElseO]
      exact ih (Nat.lt_succ_iff.mp hlt)
        (fun m h1 h2 => hm m h1 (Nat.le_succ_of_le h2))
    · have : j = k + 1 := Nat.le_antisymm hj hge
      rw [this]

/-- With no `packages:` marker line the pnpm decoder never enters the
packages section and returns its accumulator unchanged. -/
theorem parsePnpmLockLines_no_marker (lines : List Str) :
    ∀ packages, (∀ line ∈ lines, trim line ≠ "packages:".data) →
    parsePnpmLockLines lines false packages = packages := by
  induction lines with
  | nil => intro p _; rfl
  | cons line rest ih =>
    intro p h
    have hm : (trim line == "packages:".data) = false :=
      beq_eq_false_iff_ne.mpr (h line (List.mem_cons_self _ _))
    have hrest := ih p (fun l hl => h l (List.mem_cons_of_mem _ hl))
    rw [parsePnpmLockLines]
    by_cases he : ((trim line).isEmpty || (trim line).head? == some '#') = true
    · rw [if_pos he]; exact hrest
    · rw [if_neg he, if_neg (by rw [hm]; exact Bool.false_ne_true)]
      simp only [Bool.false_and, Bool.false_eq_true, if_false]
      exact hrest

/-- A yarn lock whose lines are all blank or comments decodes to the
accumulator unchanged. -/
theorem parseYarnLockLines_comments (lines : List Str) :
    ∀ cur packages,
    (∀ line ∈ lines, ((trim line).isEmpty || (trim line).head? == some '#') = true) →
    parseYarnLockLines lines cur packages = packages := by
  induction lines with
  | nil => intro _ _ _; rfl
  | cons line rest ih =>
    intro cur p h
    rw [parseYarnLockLines, if_pos (h line (List.mem_cons_self _ _))]
    exact ih cur p (fun l hl => h l (List.mem_cons_of_mem _ hl))

/- ============================================================
   Claim theorems
   ============================================================ -/

/-- C1: a node whose name matches no ignore pattern but matches at least
one database trusted pattern is classified Trusted — no Issue — regardless
of any simultaneous membership in malicious, protestware or campaign data
(the database is universally quantified). -/
theorem c1_trust_precedence (packageName version : Str) (db : ThreatDatabase)
    (depInfo : Option DepInfo) (config : Config) (ignoreList : List Str)
    (hig : isIgnored packageName ignoreList config = false)
    (htr : ∃ p ∈ db.trustedPackages, matchesPattern packageName p = true) :
    checkPackage packageName version db depInfo config ignoreList = CheckResult.trusted := by
  have h : isTrusted packageName db config = true := by
    obtain ⟨p, hp, hm⟩ := htr
    unfold isTrusted
    rw [List.any_eq_true]
    exact ⟨p, List.mem_append_left _ hp, hm⟩
  simp only [checkPackage, hig, h, Bool.false_eq_true, if_false, if_true]

/-- C1 witness: `@scope/anything` is in `knownMalicious.confirmed` of
`dbTrusted` yet matches the trusted wildcard `@scope/*`, so it is Trusted. -/
theorem c1_trust_precedence_witness :
    checkPackage "@scope/anything".data "1.0.0".data dbTrusted none emptyConfig [] =
      CheckResult.trusted :=
  c1_trust_precedence "@scope/anything".data "1.0.0".data dbTrusted none emptyConfig []
    (by decide) ⟨"@scope/*".data, by decide, by decide⟩

/-- C2 counterexample: `foo@1.0.0` matches no ignore or trusted pattern,
is in no malicious category, no protestware tier, and in no campaign's
packages set of `dbCampaignAVOnly` — the claim's premises all hold and the
claim demands Clean — yet `foo` appears as a key of a campaign's
`affectedVersions` with its version listed, and the classifier returns a
critical Issue through the version-specific campaign path, not Clean. -/
theorem c2_clean_counterexample :
    isIgnored "foo".data [] emptyConfig = false ∧
    isTrusted "foo".data dbCampaignAVOnly emptyConfig = false ∧
    dbCampaignAVOnly.knownMalicious.confirmed.contains "foo".data = false ∧
    dbCampaignAVOnly.knownMalicious.typosquatting.contains "foo".data = false ∧
    dbCampaignAVOnly.knownMalicious.credentialTheft.contains "foo".data = false ∧
    dbCampaignAVOnly.knownMalicious.cryptoMalware.contains "foo".data = false ∧
    dbCampaignAVOnly.knownMalicious.protestware.high.packages.contains "foo".data = false ∧
    dbCampaignAVOnly.knownMalicious.protestware.medium.packages.contains "foo".data = false ∧
    dbCampaignAVOnly.knownMalicious.protestware.low.packages.contains "foo".data = false ∧
    dbCampaignAVOnly.campaigns.all (fun p => !p.2.packages.contains "foo".data) = true ∧
    checkPackage "foo".data "1.0.0".data dbCampaignAVOnly none emptyConfig [] ≠
      CheckResult.clean := by
  decide

/-- C2 (amended): a node matching no ignore or trusted pattern, in no
malicious category, no protestware tier and no campaign's packages set is
classified Clean provided additionally that no campaign's
`affectedVersions` entry for the name marks the node's version affected;
when some entry does, the version-specific campaign path returns an Issue
instead. -/
theorem c2_clean_amended (packageName version : Str) (db : ThreatDatabase)
    (depInfo : Option DepInfo) (config : Config) (ignoreList : List Str)
    (hig : isIgnored packageName ignoreList config = false)
    (htr : isTrusted packageName db config = false)
    (hc : db.knownMalicious.confirmed.contains packageName = false)
    (ht : db.knownMalicious.typosquatting.contains packageName = false)
    (hcr : db.knownMalicious.credentialTheft.contains packageName = false)
    (hcm : db.knownMalicious.cryptoMalware.contains packageName = false)
    (hph : db.knownMalicious.protestware.high.packages.contains packageName = false)
    (hpm : db.knownMalicious.protestware.medium.packages.contains packageName = false)
    (hpl : db.knownMalicious.protestware.low.packages.contains packageName = false)
    (hcp : ∀ cid c, (cid, c) ∈ db.campaigns → c.packages.contains packageName = false)
    (hav : ∀ cid c av, (cid, c) ∈ db.campaigns →
      lookupA c.affectedVersions packageName = some av →
      isVersionAffected version av = false) :
    checkPackage packageName version db depInfo config ignoreList = CheckResult.clean := by
  simp only [checkPackage, hig, htr, hc, ht, hcr, hcm, hph, hpm, hpl,
    Bool.false_eq_true, if_false,
    checkCampaigns_none packageName version depInfo db.campaigns hcp hav]

/-- C2 witness: `foo@2.0.0` against `dbCampaignAVOnly` satisfies every
premise (its version is not listed in the lone affected-versions entry)
and is classified Clean. -/
theorem c2_clean_amended_witness :
    checkPackage "foo".data "2.0.0".data dbCampaignAVOnly none emptyConfig [] =
      CheckResult.clean :=
  c2_clean_amended "foo".data "2.0.0".data dbCampaignAVOnly none emptyConfig []
    (by decide) (by decide) (by decide) (by decide) (by decide) (by decide)
    (by decide) (by decide) (by decide)
    (by
      intro cid c hm
      simp only [dbCampaignAVOnly, List.mem_singleton, Prod.mk.injEq] at hm
      rcases hm with ⟨-, rfl⟩
      decide)
    (by
      intro cid c av hm hl
      simp only [dbCampaignAVOnly, List.mem_singleton, Prod.mk.injEq] at hm
      rcases hm with ⟨-, rfl⟩
      cases hl
      decide)

/-- C9: a name in `knownMalicious.confirmed` matching no ignore or trusted
pattern yields the critical Confirmed Malicious issue for every version
string, and classification of the same node against the same database and
pattern lists is deterministic. -/
theorem c9_confirmed_critical (packageName version : Str) (db : ThreatDatabase)
    (depInfo : Option DepInfo) (config : Config) (ignoreList : List Str)
    (hig : isIgnored packageName ignoreList config = false)
    (htr : isTrusted packageName db config = false)
    (hc : packageName ∈ db.knownMalicious.confirmed) :
    checkPackage packageName version db depInfo config ignoreList =
      CheckResult.issue (baseIssue packageName version depInfo "critical".data
        "Confirmed Malicious".data
        "This package has been confirmed as malicious".data
        "REMOVE IMMEDIATELY".data) ∧
    ∀ r₁ r₂ : CheckResult,
      checkPackage packageName version db depInfo config ignoreList = r₁ →
      checkPackage packageName version db depInfo config ignoreList = r₂ → r₁ = r₂ := by
  have hc' : db.knownMalicious.confirmed.contains packageName = true := by
    simpa [List.contains] using hc
  refine ⟨?_, fun r₁ r₂ h₁ h₂ => h₁.symm.trans h₂⟩
  simp only [checkPackage, hig, htr, hc', Bool.false_eq_true, if_false, if_true]

/-- C9 witness: `evil-pkg@9.9.9` against `dbConfirmed` yields the critical
Confirmed Malicious issue. -/
theorem c9_confirmed_critical_witness :
    checkPackage "evil-pkg".data "9.9.9".data dbConfirmed none emptyConfig [] =
      CheckResult.issue (baseIssue "evil-pkg".data "9.9.9".data none "critical".data
        "Confirmed Malicious".data
        "This package has been confirmed as malicious".data
        "REMOVE IMMEDIATELY".data) :=
  (c9_confirmed_critical "evil-pkg".data "9.9.9".data dbConfirmed none emptyConfig []
    (by decide) (by decide) (by decide)).1

/-- C10: when the classifier is invoked without dependency metadata, every
issue that carries the base lineage fields reports a direct dependency:
isDirect true, isTransitive false, empty chain. -/
theorem c10_unknown_lineage (packageName version : Str) (db : ThreatDatabase)
    (config : Config) (ignoreList : List Str) (i : Issue)
    (h : checkPackage packageName version db none config ignoreList = CheckResult.issue i)
    (hbase : i.isDirect ≠ none) :
    i.isDirect = some true ∧ i.isTransitive = some false ∧
      i.dependencyChain = some [] := by
  cases h0 : isIgnored packageName ignoreList config with
  | true =>
    simp only [checkPackage, h0, eq_self_iff_true, if_true] at h
    cases h
  | false =>
  cases h1 : isTrusted packageName db config with
  | true =>
    simp only [checkPackage, h0, h1, eq_self_iff_true, Bool.false_eq_true,
      if_true, if_false] at h
    cases h
  | false =>
  cases h2 : db.knownMalicious.confirmed.contains packageName with
  | true =>
    simp only [checkPackage, h0, h1, h2, eq_self_iff_true, Bool.false_eq_true,
      if_true, if_false] at h
    cases h; exact ⟨rfl, rfl, rfl⟩
  | false =>
  cases h3 : db.knownMalicious.typosquatting.contains packageName with
  | true =>
    simp only [checkPackage, h0, h1, h2, h3, eq_self_iff_true, Bool.false_eq_true,
      if_true, if_false] at h
    cases h; exact ⟨rfl, rfl, rfl⟩
  | false =>
  cases h4 : db.knownMalicious.credentialTheft.contains packageName with
  | true =>
    simp only [checkPackage, h0, h1, h2, h3, h4, eq_self_iff_true, Bool.false_eq_true,
      if_true, if_false] at h
    cases h; exact ⟨rfl, rfl, rfl⟩
  | false =>
  cases h5 : db.knownMalicious.cryptoMalware.contains packageName with
  | true =>
    simp only [checkPackage, h0, h1, h2, h3, h4, h5, eq_self_iff_true, Bool.false_eq_true,
      if_true, if_false] at h
    cases h; exact ⟨rfl, rfl, rfl⟩
  | false =>
  cases h6 : db.knownMalicious.protestware.high.packages.contains packageName with
  | true =>
    simp only [checkPackage, h0, h1, h2, h3, h4, h5, h6, eq_self_iff_true,
      Bool.false_eq_true, if_true, if_false] at h
    cases h; exact ⟨rfl, rfl, rfl⟩
  | false =>
  cases h7 : db.knownMalicious.protestware.medium.packages.contains packageName with
  | true =>
    simp only [checkPackage, h0, h1, h2, h3, h4, h5, h6, h7, eq_self_iff_true,
      Bool.false_eq_true, if_true, if_false] at h
    cases h; exact ⟨rfl, rfl, rfl⟩
  | false =>
  cases h8 : db.knownMalicious.protestware.low.packages.contains packageName with
  | true =>
    simp only [checkPackage, h0, h1, h2, h3, h4, h5, h6, h7, h8, eq_self_iff_true,
      Bool.false_eq_true, if_true, if_false] at h
    cases h; exact ⟨rfl, rfl, rfl⟩
  | false =>
    simp only [checkPackage, h0, h1, h2, h3, h4, h5, h6, h7, h8, eq_self_iff_true,
      Bool.false_eq_true, if_true, if_false] at h
    cases hcc : checkCampaigns packageName version none db.campaigns with
    | none => rw [hcc] at h; cases h
    | some j =>
      rw [hcc] at h
      cases h
      rcases checkCampaigns_lineage packageName version none db.campaigns _ hcc with
        ⟨ha, hb, hc⟩ | ⟨ha, hb, hc⟩
      · exact ⟨ha, hb, hc⟩
      · exact absurd ha hbase

/-- C3 counterexample: in `dbCampaignEmptyAV` the campaign lists `foo` in
its packages set with an affected-versions entry that is the empty set.
The claim's low-severity premise holds — the entry exists and the cleaned
version `1.0.0` is not in it — yet the classifier returns the campaign
severity path (default high, no safeVersion marker), because the source
treats an empty entry as "all versions affected". -/
theorem c3_campaign_version_counterexample :
    isIgnored "foo".data [] emptyConfig = false ∧
    isTrusted "foo".data dbCampaignEmptyAV emptyConfig = false ∧
    dbCampaignEmptyAV.campaigns = [("c1".data, campaignEmptyAV)] ∧
    campaignEmptyAV.packages.contains "foo".data = true ∧
    lookupA campaignEmptyAV.affectedVersions "foo".data = some [] ∧
    cleanVersion "1.0.0".data ∉ ([] : List Str) ∧
    ("high".data : Str) ≠ "low".data ∧
    checkPackage "foo".data "1.0.0".data dbCampaignEmptyAV none emptyConfig [] =
      CheckResult.issue { baseIssue "foo".data "1.0.0".data none "high".data "c1".data
          "Part of known attack campaign".data "CHECK VERSION AND UPDATE".data with
        campaign := some "c1".data
        affectedVersions := some [] } := by
  decide

/-- C3 (amended): for a node hitting the first campaign whose packages set
contains its name (no earlier ignore, trust, malicious or protestware
match), provided no earlier campaign's affected-versions entry for the
name marks the node's version affected (which would fire that campaign's
critical version-specific path before the loop reaches this one): a
NON-EMPTY affected-versions entry not listing the cleaned version yields
the low-severity safe-version issue; otherwise — entry absent, entry
empty, or version listed — the issue carries the campaign's declared
severity, defaulting to high. -/
theorem c3_campaign_version_split (packageName version : Str) (db : ThreatDatabase)
    (depInfo : Option DepInfo) (config : Config) (ignoreList : List Str)
    (pre : List (Str × Campaign))
    (campaignId : Str) (campaign : Campaign) (rest : List (Str × Campaign))
    (hig : isIgnored packageName ignoreList config = false)
    (htr : isTrusted packageName db config = false)
    (hc : db.knownMalicious.confirmed.contains packageName = false)
    (ht : db.knownMalicious.typosquatting.contains packageName = false)
    (hcr : db.knownMalicious.credentialTheft.contains packageName = false)
    (hcm : db.knownMalicious.cryptoMalware.contains packageName = false)
    (hph : db.knownMalicious.protestware.high.packages.contains packageName = false)
    (hpm : db.knownMalicious.protestware.medium.packages.contains packageName = false)
    (hpl : db.knownMalicious.protestware.low.packages.contains packageName = false)
    (hcamps : db.campaigns = pre ++ (campaignId, campaign) :: rest)
    (hppre : ∀ cid c, (cid, c) ∈ pre → c.packages.contains packageName = false)
    (hvpre : ∀ cid c av, (cid, c) ∈ pre →
      lookupA c.affectedVersions packageName = some av →
      isVersionAffected version av = false)
    (hp : campaign.packages.contains packageName = true) :
    (∀ av, lookupA campaign.affectedVersions packageName = some av → av ≠ [] →
      cleanVersion version ∉ av →
      checkPackage packageName version db depInfo config ignoreList =
        CheckResult.issue { baseIssue packageName version depInfo "low".data
            (campaign.name.getD campaignId)
            "Package was part of attack campaign but your version appears safe".data
            "VERIFY - Ensure you are on a safe version".data with
          campaign := some campaignId
          affectedVersions := some av
          safeVersion := true }) ∧
    (∀ av, lookupA campaign.affectedVersions packageName = some av →
      (av = [] ∨ cleanVersion version ∈ av) →
      checkPackage packageName version db depInfo config ignoreList =
        CheckResult.issue { baseIssue packageName version depInfo
            (campaign.severity.getD "high".data) (campaign.name.getD campaignId)
            (campaign.description.getD "Part of known attack campaign".data)
            "CHECK VERSION AND UPDATE".data with
          campaign := some campaignId
          affectedVersions := some av }) ∧
    (lookupA campaign.affectedVersions packageName = none →
      checkPackage packageName version db depInfo config ignoreList =
        CheckResult.issue { baseIssue packageName version depInfo
            (campaign.severity.getD "high".data) (campaign.name.getD campaignId)
            (campaign.description.getD "Part of known attack campaign".data)
            "CHECK VERSION AND UPDATE".data with
          campaign := some campaignId
          affectedVersions := none }) := by
  have hskip : checkCampaigns packageName version depInfo db.campaigns =
      checkCampaigns packageName version depInfo ((campaignId, campaign) :: rest) := by
    rw [hcamps]
    exact checkCampaigns_skip packageName version depInfo pre _ hppre hvpre
  refine ⟨?_, ?_, ?_⟩
  · intro av hl hne hnm
    have hva : isVersionAffected version av = false := by
      have h1 : av.isEmpty = false := by
        cases av with
        | nil => exact absurd rfl hne
        | cons a l => rfl
      have h2 : av.contains (cleanVersion version) = false := by
        simp only [List.contains, List.elem_eq_mem, decide_eq_false_iff_not]
        exact hnm
      simp only [isVersionAffected, h1, Bool.false_eq_true, if_false, h2]
    simp only [checkPackage, hig, htr, hc, ht, hcr, hcm, hph, hpm, hpl,
      Bool.false_eq_true, if_false, hskip, checkCampaigns, hp, if_true, hl, hva,
      Bool.not_false]
  · intro av hl hav
    have hva : isVersionAffected version av = true := by
      rcases hav with rfl | hm
      · rfl
      · have h2 : av.contains (cleanVersion version) = true := by
          simp only [List.contains, List.elem_eq_mem, decide_eq_true_eq]
          exact hm
        simp only [isVersionAffected, h2, ite_self]
    simp only [checkPackage, hig, htr, hc, ht, hcr, hcm, hph, hpm, hpl,
      Bool.false_eq_true, if_false, hskip, checkCampaigns, hp, if_true, hl, hva,
      Bool.not_true]
  · intro hl
    simp only [checkPackage, hig, htr, hc, ht, hcr, hcm, hph, hpm, hpl,
      Bool.false_eq_true, if_false, hskip, checkCampaigns, hp, if_true, hl]

/-- C3 witness: against `dbCampaignPrefixed`, where the bystander campaign
`c0` (packages `[bar]`, affected versions `{foo: [9.9.9]}`) precedes the
matching campaign `c1` (packages `[foo]`, affected versions
`{foo: [1.0.0]}`, declared severity high), `foo@2.0.0` yields the
low-severity safe-version issue and `foo@1.0.0` yields the high-severity
campaign issue of `c1`. -/
theorem c3_campaign_version_split_witness :
    checkPackage "foo".data "2.0.0".data dbCampaignPrefixed none emptyConfig [] =
      CheckResult.issue { baseIssue "foo".data "2.0.0".data none "low".data
          "Campaign One".data
          "Package was part of attack campaign but your version appears safe".data
          "VERIFY - Ensure you are on a safe version".data with
        campaign := some "c1".data
        affectedVersions := some ["1.0.0".data]
        safeVersion := true } ∧
    checkPackage "foo".data "1.0.0".data dbCampaignPrefixed none emptyConfig [] =
      CheckResult.issue { baseIssue "foo".data "1.0.0".data none "high".data
          "Campaign One".data "A campaign".data
          "CHECK VERSION AND UPDATE".data with
        campaign := some "c1".data
        affectedVersions := some ["1.0.0".data] } :=
  ⟨(c3_campaign_version_split "foo".data "2.0.0".data dbCampaignPrefixed none emptyConfig []
      [("c0".data, campaignBystander)] "c1".data campaignVersioned []
      (by decide) (by decide) (by decide) (by decide)
      (by decide) (by decide) (by decide) (by decide) (by decide) rfl
      (by
        intro cid c hm
        simp only [List.mem_singleton, Prod.mk.injEq] at hm
        obtain ⟨h1, h2⟩ := hm
        subst h2
        decide)
      (by
        intro cid c av hm hl
        simp only [List.mem_singleton, Prod.mk.injEq] at hm
        obtain ⟨h1, h2⟩ := hm
        subst h2
        have he : lookupA campaignBystander.affectedVersions "foo".data =
            some ["9.9.9".data] := by decide
        rw [he] at hl
        injection hl with h3
        subst h3
        decide)
      (by decide)).1
      ["1.0.0".data] rfl (by decide) (by decide),
   (c3_campaign_version_split "foo".data "1.0.0".data dbCampaignPrefixed none emptyConfig []
      [("c0".data, campaignBystander)] "c1".data campaignVersioned []
      (by decide) (by decide) (by decide) (by decide)
      (by decide) (by decide) (by decide) (by decide) (by decide) rfl
      (by
        intro cid c hm
        simp only [List.mem_singleton, Prod.mk.injEq] at hm
        obtain ⟨h1, h2⟩ := hm
        subst h2
        decide)
      (by
        intro cid c av hm hl
        simp only [List.mem_singleton, Prod.mk.injEq] at hm
        obtain ⟨h1, h2⟩ := hm
        subst h2
        have he : lookupA campaignBystander.affectedVersions "foo".data =
            some ["9.9.9".data] := by decide
        rw [he] at hl
        injection hl with h3
        subst h3
        decide)
      (by decide)).2.1
      ["1.0.0".data] rfl (Or.inr (by decide))⟩

/-- C10 witness: a confirmed-malicious hit with `depInfo = null` carries
isDirect true, isTransitive false, and an empty chain. -/
theorem c10_unknown_lineage_witness :
    (baseIssue "evil-pkg".data "1.0.0".data none "critical".data
      "Confirmed Malicious".data
      "This package has been confirmed as malicious".data
      "REMOVE IMMEDIATELY".data).isDirect = some true ∧
    (baseIssue "evil-pkg".data "1.0.0".data none "critical".data
      "Confirmed Malicious".data
      "This package has been confirmed as malicious".data
      "REMOVE IMMEDIATELY".data).isTransitive = some false ∧
    (baseIssue "evil-pkg".data "1.0.0".data none "critical".data
      "Confirmed Malicious".data
      "This package has been confirmed as malicious".data
      "REMOVE IMMEDIATELY".data).dependencyChain = some [] :=
  c10_unknown_lineage "evil-pkg".data "1.0.0".data dbConfirmed emptyConfig [] _
    (by decide) (by decide)

/-- C5: a directly declared name that also appears in the decoded lock map
keeps its direct identity after the merge — only the version is replaced by
the decoded one; isDirect stays true, isTransitive stays false, the chain
stays empty. -/
theorem c5_merge_overwrites_version_only (directDeps : List (Str × Str))
    (lockPackages : List (Str × LockEntry)) (name : Str) (info : LockEntry)
    (hdir : name ∈ directDeps.map Prod.fst)
    (hl : lookupA lockPackages name = some info)
    (hnd : (lockPackages.map Prod.fst).Nodup) :
    lookupA (mergeDependencies directDeps lockPackages) name =
      some ⟨info.version, true, false, []⟩ := by
  obtain ⟨v, hv⟩ := seed_fold_lookup directDeps name [] (Or.inl hdir)
  exact lock_fold_overwrite lockPackages name info _ _ hv hl hnd

/-- C5 witness: `dep-a` declared as `^1.0.0` and resolved by the lock map
to `1.2.0` merges to a direct node at version `1.2.0`. -/
theorem c5_merge_overwrites_version_only_witness :
    lookupA (mergeDependencies [("dep-a".data, "^1.0.0".data)]
      [("dep-a".data, ⟨"1.2.0".data, true, ["x".data]⟩)]) "dep-a".data =
      some ⟨"1.2.0".data, true, false, []⟩ :=
  c5_merge_overwrites_version_only [("dep-a".data, "^1.0.0".data)]
    [("dep-a".data, ⟨"1.2.0".data, true, ["x".data]⟩)] "dep-a".data
    ⟨"1.2.0".data, true, ["x".data]⟩ (by decide) (by decide) (by decide)

/-- C4: with no lock data (absent, or decoded to an empty map) and hence no
locked versions, the deep-scan build falls back to exactly the direct-only
seed, reports zero transitive packages, a null lock file, and scan mode
"direct" — and, being a total function, completes without error. -/
theorem c4_missing_lock_direct_mode (dd : List (Str × Str))
    (lock : Option (Str × List (Str × LockEntry)))
    (h : lock = none ∨ ∃ f, lock = some (f, [])) :
    buildDependencies dd lock [] =
      (directSeed dd, ⟨dd.length, dd.length, 0, none⟩) ∧
    scanMode (buildDependencies dd lock []).2 = "direct".data ∧
    (buildDependencies dd lock []).2.transitive = 0 ∧
    (buildDependencies dd lock []).2.lockFileType = none := by
  have hb : buildDependencies dd lock [] =
      (directDependencyMap dd [], ⟨dd.length, dd.length, 0, none⟩) := by
    rcases h with rfl | ⟨f, rfl⟩
    · rfl
    · rfl
  rw [hb, directDependencyMap_no_locked]
  exact ⟨rfl, rfl, rfl, rfl⟩

/-- C4 witness: one declared dependency and no lock file yield the seed
node set, scan mode "direct", zero transitive count and a null lock file. -/
theorem c4_missing_lock_direct_mode_witness :
    buildDependencies [("dep-a".data, "^1.0.0".data)] none [] =
      (directSeed [("dep-a".data, "^1.0.0".data)], ⟨1, 1, 0, none⟩) ∧
    scanMode (buildDependencies [("dep-a".data, "^1.0.0".data)] none []).2 = "direct".data ∧
    (buildDependencies [("dep-a".data, "^1.0.0".data)] none []).2.transitive = 0 ∧
    (buildDependencies [("dep-a".data, "^1.0.0".data)] none []).2.lockFileType = none :=
  c4_missing_lock_direct_mode [("dep-a".data, "^1.0.0".data)] none (Or.inl rfl)

/-- C6: evaluation of the decoder at the nested path
`node_modules/a/node_modules/b`.  The final path component `b` is recorded
as the package name, but the chain is `["node_modules/a"]`, not `["a"]`:
JS `split('/node_modules/')` leaves the leading `node_modules/` marker
attached to the first ancestor, so the marker-exclusion filter
(`p !== 'node_modules'`) never removes it. -/
theorem c6_npm_chain_keeps_marker_segment :
    extractDependencyChain "node_modules/a/node_modules/b".data =
      ["node_modules/a".data] ∧
    ("node_modules/a".data : Str) ≠ "a".data ∧
    parseNpmLock (some ⟨some [("node_modules/a/node_modules/b".data,
        ⟨some "2.0.0".data, false, false⟩)], none⟩) =
      [("b".data, ⟨"2.0.0".data, true, ["node_modules/a".data]⟩)] := by
  decide

/-- C7: the decoders are total functions of their raw input (never throw);
an empty file decodes to the empty map for all three dialects, an
unparseable JSON lock (`none`) and a JSON object without `packages` or
`dependencies` sections decode to the empty map, a pnpm file with no
`packages:` marker line decodes to the empty map, and a yarn file with no
section (only blank or comment lines) decodes to the empty map. -/
theorem c7_decoders_never_throw :
    parsePnpmLock [] = [] ∧
    parseYarnLock [] = [] ∧
    parseNpmLock none = [] ∧
    parseNpmLock (some ⟨none, none⟩) = [] ∧
    (∀ content : Str,
      (∀ line ∈ splitOnChar '\n' content, trim line ≠ "packages:".data) →
      parsePnpmLock content = []) ∧
    (∀ content : Str,
      (∀ line ∈ splitOnChar '\n' content,
        ((trim line).isEmpty || (trim line).head? == some '#') = true) →
      parseYarnLock content = []) := by
  refine ⟨rfl, rfl, rfl, rfl, ?_, ?_⟩
  · intro content h
    exact parsePnpmLockLines_no_marker (splitOnChar '\n' content) [] h
  · intro content h
    exact parseYarnLockLines_comments (splitOnChar '\n' content) [] [] h

/-- C7 witness: a markerless pnpm file and a comments-only yarn file both
decode to the empty map. -/
theorem c7_decoders_never_throw_witness :
    parsePnpmLock "lockfileVersion: 5.4\nsettings:".data = [] ∧
    parseYarnLock "# yarn lockfile v1\n\n# comment".data = [] :=
  ⟨c7_decoders_never_throw.2.2.2.2.1 "lockfileVersion: 5.4\nsettings:".data (by decide),
   c7_decoders_never_throw.2.2.2.2.2 "# yarn lockfile v1\n\n# comment".data (by decide)⟩

theorem pnpmPackageMatch_scoped (s b v : Str)
    (hs : s ≠ []) (hsc : ∀ c ∈ s, c ≠ '@' ∧ c ≠ '/' ∧ c.isWhitespace = false)
    (hb : b ≠ []) (hbc : ∀ c ∈ b, c ≠ '@' ∧ c ≠ ':' ∧ c.isWhitespace = false)
    (hv : v ≠ []) (hvc : ∀ c ∈ v, c ≠ ':' ∧ c ≠ '\'' ∧ c.isWhitespace = false) :
    pnpmPackageMatch ('\'' :: ('@' :: (s ++ '/' :: (b ++ '@' :: (v ++ ['\'', ':']))))) =
      some ('@' :: (s ++ '/' :: b), v) := by
  have e1 : (s ++ '/' :: (b ++ '@' :: (v ++ ['\'', ':']))).takeWhile
      (fun c => c != '@' && c != '/') = s := by
    apply takeWhile_append_stop
    · intro x hx
      rcases hsc x hx with ⟨h1, h2, _⟩
      simp [h1, h2]
    · decide
  have e2 : (s ++ '/' :: (b ++ '@' :: (v ++ ['\'', ':']))).drop s.length =
      '/' :: (b ++ '@' :: (v ++ ['\'', ':'])) := List.drop_left s _
  have e3 : (b ++ '@' :: (v ++ ['\'', ':'])).takeWhile
      (fun c => c != '@' && c != ':') = b := by
    apply takeWhile_append_stop
    · intro x hx
      rcases hbc x hx with ⟨h1, h2, _⟩
      simp [h1, h2]
    · decide
  have e4 : (b ++ '@' :: (v ++ ['\'', ':'])).drop b.length =
      '@' :: (v ++ ['\'', ':']) := List.drop_left b _
  have e5 : (v ++ ['\'', ':']).takeWhile (fun c => c != ':' && c != '\'') = v := by
    apply takeWhile_append_stop
    · intro x hx
      rcases hvc x hx with ⟨h1, h2, _⟩
      simp [h1, h2]
    · decide
  have e6 : (v ++ ['\'', ':']).drop v.length = ['\'', ':'] := List.drop_left v _
  have hsne : s.isEmpty = false := by cases s with | nil => exact absurd rfl hs | cons a l => rfl
  have hbne : b.isEmpty = false := by cases b with | nil => exact absurd rfl hb | cons a l => rfl
  have hvne : v.isEmpty = false := by cases v with | nil => exact absurd rfl hv | cons a l => rfl
  simp [pnpmPackageMatch, pnpmMatchSlash, pnpmMatchName, pnpmMatchVersion, orElseO,
    e1, e2, e3, e4, e5, e6, hsne, hbne, hvne, pnpmMatchEnd]


theorem parsePnpmLock_scoped (s b v : Str)
    (hs : s ≠ []) (hsc : ∀ c ∈ s, c ≠ '@' ∧ c ≠ '/' ∧ c.isWhitespace = false)
    (hb : b ≠ []) (hbc : ∀ c ∈ b, c ≠ '@' ∧ c ≠ ':' ∧ c.isWhitespace = false)
    (hv : v ≠ []) (hvc : ∀ c ∈ v, c ≠ ':' ∧ c ≠ '\'' ∧ c.isWhitespace = false) :
    List.map Prod.fst (parsePnpmLock ("packages:".data ++ '\n' ::
        ('\'' :: ('@' :: (s ++ '/' :: (b ++ '@' :: (v ++ ['\'', ':']))))))) =
      ['@' :: (s ++ '/' :: b)] := by
  have hnl : '\n' ∉ '\'' :: ('@' :: (s ++ '/' :: (b ++ '@' :: (v ++ ['\'', ':'])))) := by
    intro hmem
    simp only [List.mem_cons, List.mem_append] at hmem
    rcases hmem with h | h | h | h | h | h | h | h | h | h
    · exact absurd h (by decide)
    · exact absurd h (by decide)
    · exact absurd (hsc '\n' h).2.2 (by decide)
    · exact absurd h (by decide)
    · exact absurd (hbc '\n' h).2.2 (by decide)
    · exact absurd h (by decide)
    · exact absurd (hvc '\n' h).2.2 (by decide)
    · exact absurd h (by decide)
    · exact absurd h (by decide)
    · simp at h
  have hsplit : splitOnChar '\n' ("packages:".data ++ '\n' ::
      ('\'' :: ('@' :: (s ++ '/' :: (b ++ '@' :: (v ++ ['\'', ':'])))))) =
      ["packages:".data, '\'' :: ('@' :: (s ++ '/' :: (b ++ '@' :: (v ++ ['\'', ':']))))] := by
    rw [splitOnChar_append _ _ _ (by decide), splitOnChar_not_mem _ _ hnl]
  have hshape : '\'' :: ('@' :: (s ++ '/' :: (b ++ '@' :: (v ++ ['\'', ':'])))) =
      '\'' :: (('@' :: (s ++ '/' :: (b ++ '@' :: (v ++ ['\''])))) ++ [':']) := by
    simp [List.append_assoc]
  have htrL : trim ('\'' :: ('@' :: (s ++ '/' :: (b ++ '@' :: (v ++ ['\'', ':']))))) =
      '\'' :: ('@' :: (s ++ '/' :: (b ++ '@' :: (v ++ ['\'', ':'])))) := by
    rw [hshape]
    exact trim_sandwich '\'' ':' _ (by decide) (by decide)
  have htrP : trim "packages:".data = "packages:".data := by decide
  have hmatch := pnpmPackageMatch_scoped s b v hs hsc hb hbc hv hvc
  have hc1 : ¬((trim "packages:".data).isEmpty ||
      (trim "packages:".data).head? == some '#') = true := by decide
  have hc2 : (trim "packages:".data == "packages:".data) = true := by decide
  rw [parsePnpmLock, hsplit, parsePnpmLockLines, if_neg hc1, if_pos hc2,
    parsePnpmLockLines]
  simp only [htrL]
  have hne2 : ¬(('\'' :: ('@' :: (s ++ '/' :: (b ++ '@' :: (v ++ ['\'', ':']))))) ==
      "packages:".data) = true := by
    have : (('\'' :: ('@' :: (s ++ '/' :: (b ++ '@' :: (v ++ ['\'', ':']))))) ==
        "packages:".data) = false := by
      apply beq_eq_false_iff_ne.mpr
      intro hq
      injection hq with h1 _
      exact absurd h1 (by decide)
    rw [this]
    exact Bool.false_ne_true
  rw [if_neg (by simp)]
  rw [if_neg hne2]
  rw [if_neg (by simp)]
  rw [if_pos trivial, hmatch]
  simp [mapHas, mapSet, parsePnpmLockLines]

theorem npmNameAfter_scoped (s b : Str)
    (hs : s ≠ []) (hsc : '/' ∉ s) (hb : b ≠ []) (hbc : '/' ∉ b) :
    npmNameAfter ('@' :: (s ++ '/' :: b)) = some ('@' :: (s ++ '/' :: b)) := by
  have e1 : (s ++ '/' :: b).takeWhile (fun c => c != '/') = s := by
    apply takeWhile_append_stop
    · intro x hx
      simp only [bne_iff_ne, ne_eq, decide_eq_true_eq]
      intro he
      exact hsc (he ▸ hx)
    · decide
  have e2 : (s ++ '/' :: b).drop s.length = '/' :: b := List.drop_left s _
  have hsne : s.isEmpty = false := by
    cases s with | nil => exact absurd rfl hs | cons a l => rfl
  have hbne : b.isEmpty = false := by
    cases b with | nil => exact absurd rfl hb | cons a l => rfl
  have hbc' : b.contains '/' = false := by
    simp only [List.contains, List.elem_eq_mem, decide_eq_false_iff_not]
    exact hbc
  simp [npmNameAfter, orElseO, e1, e2, hsne, hbne, hbc', hbc]

theorem npmPathMatch_scoped (s b : Str)
    (hs : s ≠ []) (hsc : '/' ∉ s) (hb : b ≠ []) (hbc : '/' ∉ b) :
    npmPathMatch ("node_modules/".data ++ ('@' :: (s ++ '/' :: b))) =
      some ('@' :: (s ++ '/' :: b)) := by
  have hp : "node_modules/".data.isPrefixOf
      ("node_modules/".data ++ ('@' :: (s ++ '/' :: b))) = true := by
    simp only [List.isPrefixOf_iff_prefix]
    exact List.prefix_append _ _
  have hd : ("node_modules/".data ++ ('@' :: (s ++ '/' :: b))).drop
      "node_modules/".data.length = '@' :: (s ++ '/' :: b) := List.drop_left _ _
  rw [show npmPathMatch ("node_modules/".data ++ ('@' :: (s ++ '/' :: b))) =
    orElseO
      (if "node_modules/".data.isPrefixOf
          ("node_modules/".data ++ ('@' :: (s ++ '/' :: b))) then
        npmNameAfter (("node_modules/".data ++ ('@' :: (s ++ '/' :: b))).drop
          "node_modules/".data.length)
      else none)
      (npmPathMatch ("ode_modules/".data ++ ('@' :: (s ++ '/' :: b)))) from rfl]
  rw [if_pos hp, hd, npmNameAfter_scoped s b hs hsc hb hbc]
  rfl

theorem parseNpmLock_scoped (s b : Str) (info : NpmPkgInfo)
    (hs : s ≠ []) (hsc : '/' ∉ s) (hb : b ≠ []) (hbc : '/' ∉ b) :
    List.map Prod.fst (parseNpmLock (some
      ⟨some [("node_modules/".data ++ ('@' :: (s ++ '/' :: b)), info)], none⟩)) =
      ['@' :: (s ++ '/' :: b)] := by
  have hpe : ("node_modules/".data ++ ('@' :: (s ++ '/' :: b))).isEmpty = false := rfl
  have hmatch := npmPathMatch_scoped s b hs hsc hb hbc
  simp only [parseNpmLock, List.foldl_cons, List.foldl_nil, hpe, Bool.false_eq_true,
    if_false, hmatch, mapSet, mapHas, List.any_nil, List.nil_append, List.map_cons,
    List.map_nil]

theorem yarnBase_scoped (s b ver : Str) (pre : Nat)
    (hb : b ≠ [])
    (hbc : ∀ c ∈ b, c ≠ '@' ∧ c ≠ ',' ∧ c ≠ '"' ∧ c ≠ '\'' ∧ c.isWhitespace = false)
    (hv : ver ≠ [])
    (hvc : ∀ c ∈ ver, c ≠ ',' ∧ c ≠ ':' ∧ c ≠ '"' ∧ c ≠ '\'' ∧ c.isWhitespace = false) :
    yarnBase (b ++ '@' :: (ver ++ ['"', ':'])) (some s) pre =
      some ('@' :: (s ++ '/' :: b), pre + b.length + 1 + ver.length + 1) := by
  have e1 : (b ++ '@' :: (ver ++ ['"', ':'])).takeWhile
      (fun c => c != '@' && c != ',' && !c.isWhitespace && c != '"' && c != '\'') = b := by
    apply takeWhile_append_stop
    · intro x hx
      rcases hbc x hx with ⟨h1, h2, h3, h4, h5⟩
      simp [h1, h2, h3, h4, h5]
    · decide
  have e2 : (b ++ '@' :: (ver ++ ['"', ':'])).drop b.length =
      '@' :: (ver ++ ['"', ':']) := List.drop_left b _
  have e3 : (ver ++ ['"', ':']).takeWhile
      (fun c => c != ',' && c != ':' && !c.isWhitespace && c != '"' && c != '\'') = ver := by
    apply takeWhile_append_stop
    · intro x hx
      rcases hvc x hx with ⟨h1, h2, h3, h4, h5⟩
      simp [h1, h2, h3, h4, h5]
    · decide
  have e4 : (ver ++ ['"', ':']).drop ver.length = ['"', ':'] := List.drop_left ver _
  have hbne : b.isEmpty = false := by
    cases b with | nil => exact absurd rfl hb | cons a l => rfl
  have hvne : ver.isEmpty = false := by
    cases ver with | nil => exact absurd rfl hv | cons a l => rfl
  simp [yarnBase, e1, e2, e3, e4, hbne, hvne]

theorem yarnScopeDescend_scoped (s b ver : Str)
    (hs : s ≠ [])
    (hbc2 : ∀ c ∈ b, c ≠ '/')
    (hb : b ≠ [])
    (hbc : ∀ c ∈ b, c ≠ '@' ∧ c ≠ ',' ∧ c ≠ '"' ∧ c ≠ '\'' ∧ c.isWhitespace = false)
    (hv : ver ≠ [])
    (hvc : ∀ c ∈ ver, c ≠ ',' ∧ c ≠ ':' ∧ c ≠ '"' ∧ c ≠ '\'' ∧ c.isWhitespace = false) :
    yarnScopeDescend (s ++ '/' :: (b ++ '@' :: (ver ++ ['"', ':'])))
      (s.length + 1 + b.length) =
      some ('@' :: (s ++ '/' :: b), (s.length + 2) + b.length + 1 + ver.length + 1) := by
  have hskip : ∀ m, s.length < m → m ≤ s.length + 1 + b.length →
      (s ++ '/' :: (b ++ '@' :: (ver ++ ['"', ':']))).get? m ≠ some '/' := by
    intro m h1 h2
    rw [List.get?_append_right (Nat.le_of_lt h1)]
    obtain ⟨i, hi⟩ : ∃ i, m - s.length = i + 1 := ⟨m - s.length - 1, by omega⟩
    rw [hi]
    simp only [List.get?_eq_getElem?, List.getElem?_cons_succ]
    rcases Nat.lt_or_ge i b.length with hib | hib
    · rw [List.getElem?_append_left hib]
      intro hc
      exact absurd rfl (hbc2 '/' (List.getElem?_mem hc))
    · rw [List.getElem?_append_right hib]
      have hj0 : i - b.length = 0 := by omega
      rw [hj0]
      simp
  have hmain := yarnScopeDescend_skip (s ++ '/' :: (b ++ '@' :: (ver ++ ['"', ':'])))
    s.length (s.length + 1 + b.length) (by omega) hskip
  rw [hmain]
  obtain ⟨k, hk⟩ : ∃ k, s.length = k + 1 := by
    cases s with
    | nil => exact absurd rfl hs
    | cons a l => exact ⟨l.length, rfl⟩
  rw [hk, yarnScopeDescend]
  have hslash : (s ++ '/' :: (b ++ '@' :: (ver ++ ['"', ':']))).get? (k + 1) = some '/' := by
    rw [← hk, List.get?_append_right (Nat.le_refl _), Nat.sub_self]
    rfl
  rw [show ((s ++ '/' :: (b ++ '@' :: (ver ++ ['"', ':']))).get? (k + 1) ==
      some '/') = true from by rw [hslash]; rfl]
  simp only [if_true, orElseO]
  have htake : (s ++ '/' :: (b ++ '@' :: (ver ++ ['"', ':']))).take (k + 1) = s :=
    List.take_left' hk
  have hdrop : (s ++ '/' :: (b ++ '@' :: (ver ++ ['"', ':']))).drop (k + 2) =
      b ++ '@' :: (ver ++ ['"', ':']) := by
    rw [show s ++ '/' :: (b ++ '@' :: (ver ++ ['"', ':'])) =
      (s ++ ['/']) ++ (b ++ '@' :: (ver ++ ['"', ':'])) from by simp]
    exact List.drop_left' (by simp [hk])
  rw [htake, hdrop, yarnBase_scoped s b ver (k + 3) hb hbc hv hvc]

theorem yarnMatchCore_scoped (s b ver : Str)
    (hs : s ≠ [])
    (hsc : ∀ c ∈ s, c ≠ '@' ∧ c ≠ ',' ∧ c ≠ '/' ∧ c.isWhitespace = false)
    (hb : b ≠ [])
    (hbc : ∀ c ∈ b, c ≠ '@' ∧ c ≠ ',' ∧ c ≠ '/' ∧ c ≠ '"' ∧ c ≠ '\'' ∧
      c.isWhitespace = false)
    (hv : ver ≠ [])
    (hvc : ∀ c ∈ ver, c ≠ ',' ∧ c ≠ ':' ∧ c ≠ '"' ∧ c ≠ '\'' ∧ c.isWhitespace = false) :
    yarnMatchCore ('@' :: (s ++ '/' :: (b ++ '@' :: (ver ++ ['"', ':'])))) =
      some ('@' :: (s ++ '/' :: b), (s.length + 2) + b.length + 1 + ver.length + 1) := by
  have e1 : (s ++ '/' :: (b ++ '@' :: (ver ++ ['"', ':']))).takeWhile
      (fun c => c != '@' && c != ',' && !c.isWhitespace) = s ++ '/' :: b := by
    rw [show s ++ '/' :: (b ++ '@' :: (ver ++ ['"', ':'])) =
      (s ++ '/' :: b) ++ '@' :: (ver ++ ['"', ':']) from by simp]
    apply takeWhile_append_stop
    · intro x hx
      rcases List.mem_append.mp hx with hxs | hxc
      · rcases hsc x hxs with ⟨h1, h2, _, h4⟩
        simp [h1, h2, h4]
      · rcases List.mem_cons.mp hxc with rfl | hxb
        · decide
        · rcases hbc x hxb with ⟨h1, h2, _, _, _, h6⟩
          simp [h1, h2, h6]
    · decide
  have hlen : (s ++ '/' :: b).length = s.length + 1 + b.length := by
    simp [List.length_append]
    omega
  simp only [yarnMatchCore, e1, hlen]
  exact yarnScopeDescend_scoped s b ver hs (fun c hc => (hbc c hc).2.2.1) hb
    (fun c hc => by rcases hbc c hc with ⟨h1, h2, _, h4, h5, h6⟩; exact ⟨h1, h2, h4, h5, h6⟩)
    hv hvc

theorem yarnMatchAt_scoped (s b ver : Str)
    (hs : s ≠ [])
    (hsc : ∀ c ∈ s, c ≠ '@' ∧ c ≠ ',' ∧ c ≠ '/' ∧ c.isWhitespace = false)
    (hb : b ≠ [])
    (hbc : ∀ c ∈ b, c ≠ '@' ∧ c ≠ ',' ∧ c ≠ '/' ∧ c ≠ '"' ∧ c ≠ '\'' ∧
      c.isWhitespace = false)
    (hv : ver ≠ [])
    (hvc : ∀ c ∈ ver, c ≠ ',' ∧ c ≠ ':' ∧ c ≠ '"' ∧ c ≠ '\'' ∧ c.isWhitespace = false) :
    yarnMatchAt ('"' :: ('@' :: (s ++ '/' :: (b ++ '@' :: (ver ++ ['"', ':']))))) =
      some ('@' :: (s ++ '/' :: b),
        ((s.length + 2) + b.length + 1 + ver.length + 1) + 1) := by
  simp [yarnMatchAt, orElseO, yarnMatchCore_scoped s b ver hs hsc hb hbc hv hvc]

theorem yarnHeaderMatches_scoped (s b ver : Str)
    (hs : s ≠ [])
    (hsc : ∀ c ∈ s, c ≠ '@' ∧ c ≠ ',' ∧ c ≠ '/' ∧ c.isWhitespace = false)
    (hb : b ≠ [])
    (hbc : ∀ c ∈ b, c ≠ '@' ∧ c ≠ ',' ∧ c ≠ '/' ∧ c ≠ '"' ∧ c ≠ '\'' ∧
      c.isWhitespace = false)
    (hv : ver ≠ [])
    (hvc : ∀ c ∈ ver, c ≠ ',' ∧ c ≠ ':' ∧ c ≠ '"' ∧ c ≠ '\'' ∧ c.isWhitespace = false) :
    yarnHeaderMatches ('"' :: ('@' :: (s ++ '/' :: (b ++ '@' :: (ver ++ ['"', ':']))))) =
      ['@' :: (s ++ '/' :: b)] := by
  have hL : ('"' :: ('@' :: (s ++ '/' :: (b ++ '@' :: (ver ++ ['"', ':']))))).length =
      ('@' :: (s ++ '/' :: (b ++ '@' :: (ver ++ ['"', ':'])))).length + 1 := rfl
  rw [yarnHeaderMatches, hL, yarnHeaderGo,
    yarnMatchAt_scoped s b ver hs hsc hb hbc hv hvc]
  have hmax : max 1 (((s.length + 2) + b.length + 1 + ver.length + 1) + 1) =
      ((s.length + 2) + b.length + 1 + ver.length + 1) + 1 := by omega
  have hshape2 : '"' :: ('@' :: (s ++ '/' :: (b ++ '@' :: (ver ++ ['"', ':'])))) =
      ('"' :: ('@' :: (s ++ '/' :: (b ++ '@' :: (ver ++ ['"']))))) ++ [':'] := by
    simp
  have hdropC : ('"' :: ('@' :: (s ++ '/' :: (b ++ '@' :: (ver ++ ['"', ':']))))).drop
      (((s.length + 2) + b.length + 1 + ver.length + 1) + 1) = [':'] := by
    rw [hshape2]
    apply List.drop_left'
    simp only [List.length_cons, List.length_append, List.length_nil]
    omega
  have hRL : ('@' :: (s ++ '/' :: (b ++ '@' :: (ver ++ ['"', ':'])))).length =
      ((s.length + 2) + b.length + 1 + ver.length + 1) + 1 := by
    simp only [List.length_cons, List.length_append, List.length_nil]
    omega
  simp only [hmax, hdropC, hRL, yarnHeaderGo_nil, yarnHeaderGo,
    show yarnMatchAt [':'] = none from rfl]

theorem parseYarnLock_scoped (s b ver : Str)
    (hs : s ≠ [])
    (hsc : ∀ c ∈ s, c ≠ '@' ∧ c ≠ ',' ∧ c ≠ '/' ∧ c.isWhitespace = false)
    (hb : b ≠ [])
    (hbc : ∀ c ∈ b, c ≠ '@' ∧ c ≠ ',' ∧ c ≠ '/' ∧ c ≠ '"' ∧ c ≠ '\'' ∧
      c.isWhitespace = false)
    (hv : ver ≠ [])
    (hvc : ∀ c ∈ ver, c ≠ ',' ∧ c ≠ ':' ∧ c ≠ '"' ∧ c ≠ '\'' ∧ c.isWhitespace = false) :
    List.map Prod.fst (parseYarnLock
      (('"' :: ('@' :: (s ++ '/' :: (b ++ '@' :: (ver ++ ['"', ':']))))) ++ '\n' ::
        "  version \"1.0.0\"".data)) = ['@' :: (s ++ '/' :: b)] := by
  have hnl : '\n' ∉ '"' :: ('@' :: (s ++ '/' :: (b ++ '@' :: (ver ++ ['"', ':'])))) := by
    intro hmem
    simp only [List.mem_cons, List.mem_append] at hmem
    rcases hmem with h | h | h | h | h | h | h | h | h | h
    · exact absurd h (by decide)
    · exact absurd h (by decide)
    · exact absurd (hsc '\n' h).2.2.2 (by decide)
    · exact absurd h (by decide)
    · exact absurd (hbc '\n' h).2.2.2.2.2 (by decide)
    · exact absurd h (by decide)
    · exact absurd (hvc '\n' h).2.2.2.2 (by decide)
    · exact absurd h (by decide)
    · exact absurd h (by decide)
    · simp at h
  have hsplit : splitOnChar '\n'
      ((('"' :: ('@' :: (s ++ '/' :: (b ++ '@' :: (ver ++ ['"', ':']))))) ++ '\n' ::
        "  version \"1.0.0\"".data)) =
      ['"' :: ('@' :: (s ++ '/' :: (b ++ '@' :: (ver ++ ['"', ':'])))),
        "  version \"1.0.0\"".data] := by
    rw [splitOnChar_append _ _ _ hnl, splitOnChar_not_mem _ _ (by decide)]
  have hshapeH : '"' :: ('@' :: (s ++ '/' :: (b ++ '@' :: (ver ++ ['"', ':'])))) =
      '"' :: (('@' :: (s ++ '/' :: (b ++ '@' :: (ver ++ ['"'])))) ++ [':']) := by
    simp [List.append_assoc]
  have htrH : trim ('"' :: ('@' :: (s ++ '/' :: (b ++ '@' :: (ver ++ ['"', ':']))))) =
      '"' :: ('@' :: (s ++ '/' :: (b ++ '@' :: (ver ++ ['"', ':'])))) := by
    rw [hshapeH]
    exact trim_sandwich '"' ':' _ (by decide) (by decide)
  have hheads := yarnHeaderMatches_scoped s b ver hs hsc hb hbc hv hvc
  have htrV : trim "  version \"1.0.0\"".data = "version \"1.0.0\"".data := by decide
  have hvm : yarnVersionMatch "version \"1.0.0\"".data = some "1.0.0".data := by decide
  rw [parseYarnLock, hsplit, parseYarnLockLines]
  simp only [htrH]
  rw [if_neg (by simp)]
  have hcur :
      (if ((('"' :: ('@' :: (s ++ '/' :: (b ++ '@' :: (ver ++ ['"', ':']))))).head? != some ' ' && ('"' :: ('@' :: (s ++ '/' :: (b ++ '@' :: (ver ++ ['"', ':']))))).head? != some '\t') = true) then yarnHeaderMatches ('"' :: ('@' :: (s ++ '/' :: (b ++ '@' :: (ver ++ ['"', ':']))))) else []) = ['@' :: (s ++ '/' :: b)] := by
    rw [if_pos (by rfl), hheads]
  simp only [hcur]
  rw [if_neg (by
    have hA : ([' ', ' ', 'v', 'e', 'r', 's', 'i', 'o', 'n'].isPrefixOf ('"' :: ('@' :: (s ++ '/' :: (b ++ '@' :: (ver ++ ['"', ':'])))))) = false := rfl
    rw [hA]
    simp)]
  rw [parseYarnLockLines, htrV]
  rw [if_neg (by decide)]
  have hcur2 :
      (if ((("  version \"1.0.0\"".data).head? != some ' ' && ("  version \"1.0.0\"".data).head? != some '\t') = true) then yarnHeaderMatches ("version \"1.0.0\"".data)
       else ['@' :: (s ++ '/' :: b)]) = ['@' :: (s ++ '/' :: b)] := by
    rw [if_neg (by decide)]
  simp only [hcur2]
  rw [if_pos (by rfl), hvm]
  simp only [List.foldl_cons, List.foldl_nil, mapHas, List.any_nil, Bool.false_eq_true,
    if_false, mapSet, List.nil_append, parseYarnLockLines, List.map_cons, List.map_nil]

/-- C8: in all three lock-file dialects a scoped package name
`@scope/name` is extracted whole — each decoder records the full
`@scope/name` as the single package-map key, never splitting at the
internal slash.  The scope, base name and version are quantified over
strings of ordinary name characters (excluding each dialect's structural
delimiters and whitespace). -/
theorem c8_scoped_names_extracted_whole :
    (∀ s b v : Str, s ≠ [] →
      (∀ c ∈ s, c ≠ '@' ∧ c ≠ '/' ∧ c.isWhitespace = false) →
      b ≠ [] → (∀ c ∈ b, c ≠ '@' ∧ c ≠ ':' ∧ c.isWhitespace = false) →
      v ≠ [] → (∀ c ∈ v, c ≠ ':' ∧ c ≠ '\'' ∧ c.isWhitespace = false) →
      List.map Prod.fst (parsePnpmLock ("packages:".data ++ '\n' ::
        ('\'' :: ('@' :: (s ++ '/' :: (b ++ '@' :: (v ++ ['\'', ':'])))))))
        = ['@' :: (s ++ '/' :: b)]) ∧
    (∀ s b : Str, ∀ info : NpmPkgInfo, s ≠ [] → '/' ∉ s → b ≠ [] → '/' ∉ b →
      List.map Prod.fst (parseNpmLock (some
        ⟨some [("node_modules/".data ++ ('@' :: (s ++ '/' :: b)), info)], none⟩)) =
        ['@' :: (s ++ '/' :: b)]) ∧
    (∀ s b ver : Str, s ≠ [] →
      (∀ c ∈ s, c ≠ '@' ∧ c ≠ ',' ∧ c ≠ '/' ∧ c.isWhitespace = false) →
      b ≠ [] →
      (∀ c ∈ b, c ≠ '@' ∧ c ≠ ',' ∧ c ≠ '/' ∧ c ≠ '"' ∧ c ≠ '\'' ∧
        c.isWhitespace = false) →
      ver ≠ [] →
      (∀ c ∈ ver, c ≠ ',' ∧ c ≠ ':' ∧ c ≠ '"' ∧ c ≠ '\'' ∧ c.isWhitespace = false) →
      List.map Prod.fst (parseYarnLock
        (('"' :: ('@' :: (s ++ '/' :: (b ++ '@' :: (ver ++ ['"', ':']))))) ++ '\n' ::
          "  version \"1.0.0\"".data)) = ['@' :: (s ++ '/' :: b)]) :=
  ⟨fun s b v hs hsc hb hbc hv hvc => parsePnpmLock_scoped s b v hs hsc hb hbc hv hvc,
   fun s b info hs hsc hb hbc => parseNpmLock_scoped s b info hs hsc hb hbc,
   fun s b ver hs hsc hb hbc hv hvc => parseYarnLock_scoped s b ver hs hsc hb hbc hv hvc⟩

/-- C8 witness: the scoped name `@scope/pkg` comes out whole from all
three decoders on concrete lock texts. -/
theorem c8_scoped_names_extracted_whole_witness :
    List.map Prod.fst (parsePnpmLock ("packages:".data ++ '\n' ::
      ('\'' :: ('@' :: ("scope".data ++ '/' :: ("pkg".data ++ '@' ::
        ("1.2.3".data ++ ['\'', ':'])))))))
      = ['@' :: ("scope".data ++ '/' :: "pkg".data)] ∧
    List.map Prod.fst (parseNpmLock (some
      ⟨some [("node_modules/".data ++ ('@' :: ("scope".data ++ '/' :: "pkg".data)),
        ⟨some "2.0.0".data, false, false⟩)], none⟩)) =
      ['@' :: ("scope".data ++ '/' :: "pkg".data)] ∧
    List.map Prod.fst (parseYarnLock
      (('"' :: ('@' :: ("scope".data ++ '/' :: ("pkg".data ++ '@' ::
        ("^1.0.0".data ++ ['"', ':']))))) ++ '\n' :: "  version \"1.0.0\"".data)) =
      ['@' :: ("scope".data ++ '/' :: "pkg".data)] :=
  ⟨c8_scoped_names_extracted_whole.1 "scope".data "pkg".data "1.2.3".data
      (by decide) (by decide) (by decide) (by decide) (by decide) (by decide),
   c8_scoped_names_extracted_whole.2.1 "scope".data "pkg".data
      ⟨some "2.0.0".data, false, false⟩ (by decide) (by decide) (by decide) (by decide),
   c8_scoped_names_extracted_whole.2.2 "scope".data "pkg".data "^1.0.0".data
      (by decide) (by decide) (by decide) (by decide) (by decide) (by decide)⟩

end SecurityScan
